import Mathlib

/-!
Verification of the UDB multi-index B+Tree core (src/UDBE/udb_btree.cpp,
src/UDBE/udb_common.h) through a shallow embedding.

Bytes are modelled as `Nat` (values 0..255), keys as byte lists, file
positions as `Int` (the sentinel `INVALID_POSITION` is `-1`), and machine
integers are decoded with explicit `% 2^w` arithmetic.  Node and leaf
blocks are modelled as typed records; the byte-level XOR-checksum layer of
`udb_common.h` / `readNode` / `writeNode` is embedded separately at byte
level.  In the typed machine a block read always returns the stored block
(a crash-free process never sees a checksum mismatch), so the `hasError`
flag only gates operation entry, exactly as in the source.
-/

namespace UDB

/-- Key types, from `enum class KeyType` in udb_common.h. -/
inductive KeyType where
  | VOID
  | BLOCK
  | NUM_BLOCK
  | INTEGER
  | LONG_INT
  | STRING
  | LOGICAL
  | CHARACTER
deriving DecidableEq, Repr

/-- Error codes, from `enum class ErrorCode` in udb_common.h (the subset
relevant to the embedded operations). -/
inductive ErrorCode where
  | OK
  | READ_ERROR
  | WRITE_ERROR
  | BAD_DATA
deriving DecidableEq, Repr

/-- `INVALID_POSITION` from udb_common.h. -/
def INVALID_POSITION : Int := -1

/-- Three-way comparison of integers, the pattern
`(v1 > v2) ? 1 : ((v1 < v2) ? -1 : 0)` used throughout `MultiIndex::compare`. -/
def threeWay (a b : Int) : Int :=
  if a > b then 1 else if a < b then -1 else 0

/-- `std::memcmp` over byte lists (unsigned byte-lexicographic, first byte
first), already reduced to sign, as used by the `BLOCK` case of
`MultiIndex::compare`. -/
def memcmpB : List Nat → List Nat → Int
  | [], [] => 0
  | [], _ :: _ => 0
  | _ :: _, [] => 0
  | a :: as, b :: bs =>
    if a < b then -1 else if b < a then 1 else memcmpB as bs

/-- The `NUM_BLOCK` comparison loop of `MultiIndex::compare`: bytes are
compared from index `keySize-1` down to 0, first difference decides; this
is byte-lexicographic comparison of the reversed byte lists. -/
def numBlockCmp (k1 k2 : List Nat) : Int :=
  memcmpB k1.reverse k2.reverse

/-- Two's-complement decoding of a 16-bit little-endian integer from the
first two bytes of a key, as `*static_cast<const int16_t*>(key)` reads it
on a little-endian machine. -/
def toInt16 (k : List Nat) : Int :=
  let v : Nat := (k.getD 0 0 % 256 + 256 * (k.getD 1 0 % 256)) % 65536
  if v < 32768 then (v : Int) else (v : Int) - 65536

/-- Two's-complement decoding of a 32-bit little-endian integer from the
first four bytes of a key, as `*static_cast<const int32_t*>(key)` reads it. -/
def toInt32 (k : List Nat) : Int :=
  let v : Nat := (k.getD 0 0 % 256 + 256 * (k.getD 1 0 % 256) +
    65536 * (k.getD 2 0 % 256) + 16777216 * (k.getD 3 0 % 256)) % 4294967296
  if v < 2147483648 then (v : Int) else (v : Int) - 4294967296

/-- `std::strcmp` over byte buffers, reduced to sign: unsigned bytes are
compared until they differ or a NUL terminator is reached.  List end is
treated as NUL padding. -/
def strcmpB : List Nat → List Nat → Int
  | [], [] => 0
  | [], b :: _ => if b = 0 then 0 else -1
  | a :: _, [] => if a = 0 then 0 else 1
  | a :: as, b :: bs =>
    if a = b then (if a = 0 then 0 else strcmpB as bs)
    else if a < b then -1 else 1

/-- `MultiIndex::compare` (udb_btree.cpp:891): the per-type three-way key
comparator.  `ks` is the configured key size; `BLOCK`/`NUM_BLOCK` compare
exactly `ks` bytes, `INTEGER`/`LONG_INT` read fixed-width native integers,
`STRING` is `strcmp`, `LOGICAL` compares booleans, `CHARACTER` compares the
first unsigned byte.  Unknown types compare equal. -/
def compare (kt : KeyType) (ks : Nat) (k1 k2 : List Nat) : Int :=
  match kt with
  | KeyType.BLOCK => memcmpB (k1.take ks) (k2.take ks)
  | KeyType.NUM_BLOCK => numBlockCmp (k1.take ks) (k2.take ks)
  | KeyType.INTEGER => threeWay (toInt16 k1) (toInt16 k2)
  | KeyType.LONG_INT => threeWay (toInt32 k1) (toInt32 k2)
  | KeyType.STRING => strcmpB k1 k2
  | KeyType.LOGICAL =>
    let b1 : Bool := k1.headD 0 ≠ 0
    let b2 : Bool := k2.headD 0 ≠ 0
    if b1 ∧ ¬ b2 then 1 else if ¬ b1 ∧ b2 then -1 else 0
  | KeyType.CHARACTER => threeWay (k1.headD 0) (k2.headD 0)
  | KeyType.VOID => 0

/-- `MultiIndex::fillEOFKey` (udb_btree.cpp:663): the EOF-sentinel key
pattern.  All bytes `0xFF`; then `STRING` zeroes the last byte,
`NUM_BLOCK`/`INTEGER` clear bit 7 of byte 0, `LONG_INT` clears bit 7 of
the last byte. -/
def fillEOFKey (kt : KeyType) (ks : Nat) : List Nat :=
  let base := List.replicate ks 255
  match kt with
  | KeyType.STRING => base.set (ks - 1) 0
  | KeyType.NUM_BLOCK => base.set 0 127
  | KeyType.INTEGER => base.set 0 127
  | KeyType.LONG_INT => base.set (ks - 1) 127
  | _ => base

/-! ### Byte-level checksum layer (udb_common.h:401, udb_btree.cpp:411-483) -/

/-- `calculateBlockChecksum` (udb_common.h:401): 8-bit XOR of all bytes of
a block. -/
def calculateBlockChecksum (block : List Nat) : Nat :=
  block.foldl (· ^^^ ·) 0

/-- `setNodeChecksum` / `setLeaveChecksum` (udb_btree.cpp:411,423) as a
byte transformation: the first byte (the checksum field) is zeroed, the
XOR of all bytes is computed and stored in the first byte.  This is what
`writeNode`/`writeLeave` apply to a block before writing it. -/
def setBlockChecksum (block : List Nat) : List Nat :=
  match block with
  | [] => []
  | _ :: t => calculateBlockChecksum (0 :: t) :: t

/-- `testNodeChecksum` / `testLeaveChecksum` (udb_btree.cpp:418,430): a
block as read is correct iff XOR of all its bytes is zero. -/
def testBlockChecksum (block : List Nat) : Bool :=
  calculateBlockChecksum block == 0

/-- The error outcome of `readNode`/`readLeave` (udb_btree.cpp:439,462) on
a block with the given bytes: `BAD_DATA` is latched (and the corruption
exception raised) exactly when the checksum test fails. -/
def readBlockError (block : List Nat) : Option ErrorCode :=
  if testBlockChecksum block then none else some ErrorCode.BAD_DATA

theorem foldl_xor_eq (t : List Nat) : ∀ a : Nat,
    List.foldl (· ^^^ ·) a t = a ^^^ (List.foldl (· ^^^ ·) 0 t) := by
  induction t with
  | nil => intro a; simp
  | cons b t ih =>
    intro a
    simp only [List.foldl_cons]
    rw [ih (a ^^^ b), ih (0 ^^^ b)]
    simp [Nat.xor_assoc]

theorem xor_cons (a : Nat) (t : List Nat) :
    calculateBlockChecksum (a :: t) = a ^^^ (calculateBlockChecksum t) := by
  simp only [calculateBlockChecksum, List.foldl_cons]
  rw [foldl_xor_eq]
  simp

/-! ### Typed block model

A leaf block (`LeafHeader` + key bytes) and an interior node block
(`NodeHeader` + `numUsed` packed `(key, childPos)` items).  `numUsed` is
`items.length`; the checksum byte is carried by the byte-level layer
above and is always consistent for blocks round-tripping through the
typed machine. -/

/-- A leaf block: `LeafHeader { checksum, nextLeave, prevLeave, dataPos }`
followed by the key bytes (udb_btree.h). -/
structure Leaf where
  nextLeave : Int
  prevLeave : Int
  dataPos : Int
  key : List Nat
deriving DecidableEq, Repr

/-- An interior node block: `NodeHeader { checksum, numUsed, nextNode,
prevNode }` followed by `numUsed` packed `(routing key, child position)`
items (udb_btree.h). -/
structure Node where
  nextNode : Int
  prevNode : Int
  items : List (List Nat × Int)
deriving DecidableEq, Repr

/-- `getNumItems` (udb_btree.cpp:623). -/
def getNumItems (n : Node) : Nat := n.items.length

/-- `getNodeKey` (udb_btree.cpp:633), 1-based.  Reading an item beyond
`numUsed` reads zeroed/stale body bytes in the source; the model returns
a zero default. -/
def getNodeKey (n : Node) (itemNo : Nat) : List Nat :=
  (n.items.getD (itemNo - 1) ([], 0)).1

/-- `getChildPos` (udb_btree.cpp:682), 1-based. -/
def getChildPos (n : Node) (itemNo : Nat) : Int :=
  (n.items.getD (itemNo - 1) ([], 0)).2

/-- `setNodeKey` (udb_btree.cpp:643), 1-based. -/
def setNodeKeyN (n : Node) (itemNo : Nat) (key : List Nat) : Node :=
  { n with items :=
      n.items.set (itemNo - 1) (key, (n.items.getD (itemNo - 1) ([], 0)).2) }

/-- `setChildPos` (udb_btree.cpp:689), 1-based. -/
def setChildPosN (n : Node) (itemNo : Nat) (pos : Int) : Node :=
  { n with items :=
      n.items.set (itemNo - 1) ((n.items.getD (itemNo - 1) ([], 0)).1, pos) }

/-- `insertItem` (udb_btree.cpp:746): no-op for `itemNo = 0`; inserts at
position `itemNo` (1-based, shifting the tail right) when
`itemNo ≤ numItems`, else appends at position `numItems + 1`. -/
def insertItem (n : Node) (itemNo : Nat) (key : List Nat) (childPos : Int) : Node :=
  if itemNo = 0 then n
  else
    let numItems := n.items.length
    let insertAt := if itemNo ≥ numItems + 1 then numItems + 1 else itemNo
    { n with items :=
        n.items.take (insertAt - 1) ++ (key, childPos) :: n.items.drop (insertAt - 1) }

/-- `deleteItem` (udb_btree.cpp:772): shifts the tail left over position
`itemNo` when `0 < itemNo < numItems`, then decrements `numUsed` (so for
`itemNo = 0` or `itemNo ≥ numItems` the last item is dropped); no-op on an
empty node. -/
def deleteItem (n : Node) (itemNo : Nat) : Node :=
  let numItems := n.items.length
  if numItems = 0 then n
  else if 1 ≤ itemNo ∧ itemNo < numItems then
    { n with items := n.items.take (itemNo - 1) ++ n.items.drop itemNo }
  else
    { n with items := n.items.dropLast }

/-- `resetNode` (udb_btree.cpp:608): zero body, `numUsed = 0`, sibling
links invalid. -/
def resetNode : Node := { nextNode := -1, prevNode := -1, items := [] }

/-- `resetLeave` (udb_btree.cpp:616): zero-filled block (so `dataPos = 0`
and the key bytes are zero), leaf links invalid. -/
def resetLeave (ks : Nat) : Leaf :=
  { nextLeave := -1, prevLeave := -1, dataPos := 0, key := List.replicate ks 0 }

/-- `setLeaveKey` copies exactly `keySize` bytes from the caller's buffer;
the model zero-pads a shorter list to keep key lengths uniform. -/
def storeKey (ks : Nat) (k : List Nat) : List Nat :=
  (k ++ List.replicate ks 0).take ks

/-! ### The machine state

One `MultiIndex` handle restricted to its active index: the `IndexInfo`
descriptor fields, the `PositionInfo` cursor, the node and leaf block
stores (file position → block), the file size, the stream put-position
(`File::write` with `pos == INVALID_POSITION` writes at the current put
position), and the latched error code. -/

structure MIState where
  attributes : Nat
  keyType : KeyType
  keySize : Nat
  maxItems : Nat
  freeCreateNodes : Int
  freeCreateLeaves : Int
  freeNode : Int
  freeLeave : Int
  numLevels : Nat
  rootNode : Int
  firstLeave : Int
  lastLeave : Int
  currentLeave : Int
  posNextLeave : Int
  posPrevLeave : Int
  currentDataPos : Int
  bofFlag : Bool
  eofFlag : Bool
  nodes : Int → Option Node
  leaves : Int → Option Leaf
  fileSize : Int
  putPos : Int
  errorCode : ErrorCode

/-- `File::hasError`. -/
def hasError (s : MIState) : Bool := s.errorCode ≠ ErrorCode.OK

/-- `getNodeSize` (udb_btree.cpp:357): `(keySize + 8) * maxItems + 19`
(`sizeof(NodeHeader) = 19` packed). -/
def nodeSizeOf (s : MIState) : Int := ((s.keySize + 8) * s.maxItems + 19 : Nat)

/-- `getLeaveSize` (udb_btree.cpp:362): `keySize + 25`
(`sizeof(LeafHeader) = 25` packed). -/
def leaveSizeOf (s : MIState) : Int := (s.keySize + 25 : Nat)

/-- `readNode` (udb_btree.cpp:439) in the typed model: blocks written by
this machine always carry a valid checksum, so the read returns the
stored block; a position never written reads as a zero block. -/
def readNodeS (s : MIState) (pos : Int) : Node :=
  (s.nodes pos).getD resetNode

/-- `readLeave` (udb_btree.cpp:462) in the typed model. -/
def readLeaveS (s : MIState) (pos : Int) : Leaf :=
  (s.leaves pos).getD (resetLeave s.keySize)

/-- `writeNode` (udb_btree.cpp:449): store the block (with refreshed
checksum) at `pos`; `pos = INVALID_POSITION` writes at the current put
position (`File::write`, udb_file.cpp:144).  The put position advances
past the written block. -/
def writeNodeS (s : MIState) (n : Node) (pos : Int) : MIState :=
  let p := if pos = INVALID_POSITION then s.putPos else pos
  { s with nodes := fun q => if q = p then some n else s.nodes q,
           putPos := p + nodeSizeOf s }

/-- `writeLeave` (udb_btree.cpp:472). -/
def writeLeaveS (s : MIState) (l : Leaf) (pos : Int) : MIState :=
  let p := if pos = INVALID_POSITION then s.putPos else pos
  { s with leaves := fun q => if q = p then some l else s.leaves q,
           putPos := p + leaveSizeOf s }

/-- `createNodes` (udb_btree.cpp:489): append `numNodes` reset node blocks
at end of file, block `i` pointing at block `i+1`, the last pointing at
the old free-node head; the free-node head becomes the first new block. -/
def createNodes (s : MIState) (numNodes : Int) : MIState :=
  if numNodes ≤ 0 then s
  else
    let count := numNodes.toNat
    let oldSize := s.fileSize
    let ns := nodeSizeOf s
    let s1 := (List.range count).foldl (fun acc i =>
      let nxt : Int := if i + 1 < count then oldSize + (i + 1) * ns else s.freeNode
      writeNodeS acc { resetNode with nextNode := nxt } (oldSize + i * ns)) s
    { s1 with freeNode := oldSize, fileSize := oldSize + numNodes * ns }

/-- `createLeaves` (udb_btree.cpp:511). -/
def createLeaves (s : MIState) (numLeaves : Int) : MIState :=
  if numLeaves ≤ 0 then s
  else
    let count := numLeaves.toNat
    let oldSize := s.fileSize
    let ls := leaveSizeOf s
    let s1 := (List.range count).foldl (fun acc i =>
      let nxt : Int := if i + 1 < count then oldSize + (i + 1) * ls else s.freeLeave
      writeLeaveS acc { resetLeave s.keySize with nextLeave := nxt } (oldSize + i * ls)) s
    { s1 with freeLeave := oldSize, fileSize := oldSize + numLeaves * ls }

/-- `allocateNode` (udb_btree.cpp:533): take the free-list head (after
replenishing an exhausted list) and advance the head to its `nextNode`. -/
def allocateNode (s : MIState) : MIState × Int :=
  let s := if s.freeNode = INVALID_POSITION then createNodes s s.freeCreateNodes else s
  let nodePos := s.freeNode
  let tempNode := readNodeS s nodePos
  ({ s with freeNode := tempNode.nextNode }, nodePos)

/-- `allocateLeave` (udb_btree.cpp:548). -/
def allocateLeave (s : MIState) : MIState × Int :=
  let s := if s.freeLeave = INVALID_POSITION then createLeaves s s.freeCreateLeaves else s
  let leavePos := s.freeLeave
  let tempLeave := readLeaveS s leavePos
  ({ s with freeLeave := tempLeave.nextLeave }, leavePos)

/-- `freeNode` (udb_btree.cpp:563): write a reset block whose `nextNode`
is the old free head, and make `nodePos` the new head. -/
def freeNodeOp (s : MIState) (nodePos : Int) : MIState :=
  let s := writeNodeS s { resetNode with nextNode := s.freeNode } nodePos
  { s with freeNode := nodePos }

/-- `freeLeave` (udb_btree.cpp:572). -/
def freeLeaveOp (s : MIState) (leavePos : Int) : MIState :=
  let s := writeLeaveS s { resetLeave s.keySize with nextLeave := s.freeLeave } leavePos
  { s with freeLeave := leavePos }

/-- `writeNewNode` (udb_btree.cpp:455). -/
def writeNewNode (s : MIState) (n : Node) : MIState × Int :=
  let (s, nodePos) := allocateNode s
  (writeNodeS s n nodePos, nodePos)

/-- `writeNewLeave` (udb_btree.cpp:478). -/
def writeNewLeave (s : MIState) (l : Leaf) : MIState × Int :=
  let (s, leavePos) := allocateLeave s
  (writeLeaveS s l leavePos, leavePos)

/-- `createFirstNode` (udb_btree.cpp:581): the EOF sentinel leaf and a
root node with a single entry pointing at it. -/
def createFirstNode (s : MIState) : MIState :=
  let eofk := fillEOFKey s.keyType s.keySize
  let leave : Leaf := { nextLeave := -1, prevLeave := -1, dataPos := -1, key := eofk }
  let (s, leavePos) := writeNewLeave s leave
  let s := { s with firstLeave := leavePos, lastLeave := leavePos }
  let node : Node := { resetNode with items := [(eofk, leavePos)] }
  let (s, nodePos) := writeNewNode s node
  { s with rootNode := nodePos }

/-- `writeInfo` (udb_btree.cpp:216): the descriptor of the active index is
rewritten at its fixed offset (`sizeof(MultiIndexHeader) = 3`,
`sizeof(IndexInfo) = 67`; the model carries index 0).  Only the put
position is tracked for it. -/
def writeInfoS (s : MIState) : MIState :=
  { s with putPos := 3 + 67 }

/-- `initIndex` (udb_btree.cpp:256): configure the active index, write its
descriptor, pre-create nodes and leaves, create the first node and set
`numLevels = 1`. -/
def initIndex (s : MIState) (kt : KeyType) (ks : Nat) (attrs : Nat)
    (numItems : Nat) (fcn fcl : Int) : MIState :=
  if hasError s then s
  else
    let s := { s with attributes := attrs, keyType := kt, keySize := ks,
                      maxItems := numItems, freeCreateNodes := fcn,
                      freeCreateLeaves := fcl, freeNode := -1, freeLeave := -1,
                      numLevels := 0, rootNode := -1 }
    let s := writeInfoS s
    let s := createNodes s fcn
    let s := createLeaves s fcl
    let s := createFirstNode s
    { s with numLevels := 1 }

/-- A freshly constructed single-index `MultiIndex` file before
`initIndex`: the file holds the 3-byte header and one 67-byte descriptor. -/
def emptyState : MIState where
  attributes := 0
  keyType := KeyType.VOID
  keySize := 0
  maxItems := 0
  freeCreateNodes := 0
  freeCreateLeaves := 0
  freeNode := -1
  freeLeave := -1
  numLevels := 0
  rootNode := -1
  firstLeave := -1
  lastLeave := -1
  currentLeave := -1
  posNextLeave := -1
  posPrevLeave := -1
  currentDataPos := -1
  bofFlag := false
  eofFlag := false
  nodes := fun _ => none
  leaves := fun _ => none
  fileSize := 70
  putPos := 70
  errorCode := ErrorCode.OK

/-! ### Cursor management (udb_btree.cpp:794-873) -/

/-- `resetPosition` (udb_btree.cpp:794). -/
def resetPosition (s : MIState) : MIState :=
  { s with currentLeave := -1, posNextLeave := -1, posPrevLeave := -1,
           currentDataPos := -1, bofFlag := false, eofFlag := false }

/-- `setPosition` (udb_btree.cpp:804): set the cursor fields and refresh
the BOF/EOF flags. -/
def setPosition (s : MIState) (cur nxt prv dp : Int) : MIState :=
  let s := { s with currentLeave := cur, posNextLeave := nxt,
                    posPrevLeave := prv, currentDataPos := dp }
  let s := if prv = INVALID_POSITION ∨ cur = s.firstLeave
    then { s with bofFlag := true } else { s with bofFlag := false }
  if nxt = INVALID_POSITION ∨ nxt = s.lastLeave
    then { s with eofFlag := true } else { s with eofFlag := false }

/-- `setPositionFromLeave` (udb_btree.cpp:829). -/
def setPositionFromLeave (s : MIState) (leavePos : Int) (l : Leaf) : MIState :=
  setPosition s leavePos l.nextLeave l.prevLeave l.dataPos

/-- `bringLeave` (udb_btree.cpp:955): position the cursor on the leaf at
`leavePos` and return its data position; `INVALID_POSITION` is returned
unchanged. -/
def bringLeave (s : MIState) (leavePos : Int) : MIState × Int :=
  if leavePos = INVALID_POSITION then (s, INVALID_POSITION)
  else
    let l := readLeaveS s leavePos
    let s := setPositionFromLeave s leavePos l
    (s, s.currentDataPos)

/-! ### Binary search within a node (udb_btree.cpp:33-63) -/

/-- The `while (left < right)` loop of `MultiIndex::binarySearchNode`:
narrow `[left, right]` to the first position whose key compares `≥` the
search key.  The interval length shrinks strictly each iteration, so a
fuel of `right - left + 1` never runs out. -/
def bsLoop (kt : KeyType) (ks : Nat) (n : Node) (key : List Nat) :
    Nat → Nat → Nat → Nat
  | 0, left, _ => left
  | fuel + 1, left, right =>
    if left < right then
      let mid := left + (right - left) / 2
      if compare kt ks key (getNodeKey n mid) ≤ 0 then
        bsLoop kt ks n key fuel left mid
      else
        bsLoop kt ks n key fuel (mid + 1) right
    else left

/-- `MultiIndex::binarySearchNode` (udb_btree.cpp:33): `(position,
exactMatch)`, position 1-based; `(1, false)` on an empty node, otherwise
the loop result together with an equality test at that position. -/
def binarySearchNode (kt : KeyType) (ks : Nat) (n : Node) (key : List Nat)
    (numItems : Nat) : Nat × Bool :=
  if numItems = 0 then (1, false)
  else
    let left := bsLoop kt ks n key numItems 1 numItems
    (left, compare kt ks key (getNodeKey n left) == 0)

/-! ### Lookup (udb_btree.cpp:1017-1079) -/

/-- The descent loop of `findLeave`: while more than one level remains,
binary-search the current node and follow the child pointer; an
out-of-range position aborts with `INVALID_POSITION`. -/
def findLeaveLoop (s : MIState) (key : List Nat) : Nat → Int → Int
  | 0, nodePos => nodePos
  | 1, nodePos => nodePos
  | levelNo + 2, nodePos =>
    if nodePos = INVALID_POSITION then nodePos
    else
      let node := readNodeS s nodePos
      let numItems := getNumItems node
      let (keyNo, _) := binarySearchNode s.keyType s.keySize node key numItems
      if keyNo ≤ numItems then
        findLeaveLoop s key (levelNo + 1) (getChildPos node keyNo)
      else
        findLeaveLoop s key (levelNo + 1) INVALID_POSITION

/-- `MultiIndex::findLeave` (udb_btree.cpp:1017): pure descent returning
`(exactMatch, leavePos)`.  In the source the out-parameter stays
uninitialized when the descent dead-ends at an empty interior node; the
model returns `INVALID_POSITION` there (the value the callers treat as
"no leaf"). -/
def findLeave (s : MIState) (key : List Nat) : Bool × Int :=
  let levelNo := s.numLevels
  if levelNo < 1 then (false, INVALID_POSITION)
  else
    let nodePos := findLeaveLoop s key levelNo s.rootNode
    if nodePos ≠ INVALID_POSITION then
      let node := readNodeS s nodePos
      let numItems := getNumItems node
      let (keyNo, exact) := binarySearchNode s.keyType s.keySize node key numItems
      if keyNo ≤ numItems then (exact, getChildPos node keyNo)
      else (false, INVALID_POSITION)
    else (false, INVALID_POSITION)

/-- `MultiIndex::find` (udb_btree.cpp:1066): on an exact match bring the
found leaf (cursor points at it, its data position is returned); otherwise
position the cursor at the terminating leaf, if any, and return
`INVALID_POSITION`. -/
def find (s : MIState) (key : List Nat) : MIState × Int :=
  if hasError s then (s, INVALID_POSITION)
  else
    let (found, leavePos) := findLeave s key
    if found then bringLeave s leavePos
    else if leavePos ≠ INVALID_POSITION then ((bringLeave s leavePos).1, INVALID_POSITION)
    else (s, INVALID_POSITION)

/-- `MultiIndex::modifyLeave` (udb_btree.cpp:1432): descend like
`findLeave`; at the bottom, on an exact match replace the entry's child
pointer by `newLeavePos`, returning the old child, else return
`INVALID_POSITION`. -/
def modifyLeave (s : MIState) (key : List Nat) (newLeavePos : Int) : MIState × Int :=
  let levelNo := s.numLevels
  if levelNo < 1 then (s, INVALID_POSITION)
  else
    let nodePos := findLeaveLoop s key levelNo s.rootNode
    if nodePos ≠ INVALID_POSITION then
      let node := readNodeS s nodePos
      let numItems := getNumItems node
      let (keyNo, exact) := binarySearchNode s.keyType s.keySize node key numItems
      if keyNo ≤ numItems ∧ exact then
        let result := getChildPos node keyNo
        let s := writeNodeS s (setChildPosN node keyNo newLeavePos) nodePos
        (s, result)
      else (s, INVALID_POSITION)
    else (s, INVALID_POSITION)

/-! ### Path search (udb_btree.cpp:1081-1142)

The path stack is a list of `(nodePos, childNo)` with the most recently
pushed pair first.  `remainLevels` is a `uint16_t` in the source, so its
decrement wraps modulo `2^16`; every continuing iteration decrements it
once and root collapses strictly decrease `numLevels`, so any execution
performs fewer than `262144` iterations — the fuel passed by `findPath`. -/

/-- The `while (nodePos != INVALID_POSITION)` loop of
`MultiIndex::findPath`.  Returns (state, stack, lastLevelChild,
remainLevels). -/
def findPathLoop (key : List Nat) :
    Nat → MIState → Int → Nat → Bool → List (Int × Nat) → Int →
    MIState × List (Int × Nat) × Int × Nat
  | 0, s, _, remainLevels, _, stack, llc => (s, stack, llc, remainLevels)
  | fuel + 1, s, nodePos, remainLevels, notFirstLevel, stack, llc =>
    if nodePos = INVALID_POSITION then (s, stack, llc, remainLevels)
    else
      let node := readNodeS s nodePos
      let numItems := getNumItems node
      if notFirstLevel ∨ numItems > 1 then
        let (keyNo, exact) := binarySearchNode s.keyType s.keySize node key numItems
        if keyNo ≤ numItems then
          let r := (remainLevels + 65535) % 65536
          if r = 0 then
            findPathLoop key fuel s INVALID_POSITION r true
              ((nodePos, if exact then keyNo else 0) :: stack) (getChildPos node keyNo)
          else
            findPathLoop key fuel s (getChildPos node keyNo) r true
              ((nodePos, keyNo) :: stack) llc
        else
          findPathLoop key fuel s INVALID_POSITION remainLevels true [] INVALID_POSITION
      else
        if s.numLevels > 1 then
          let child := getChildPos node 1
          let s := freeNodeOp s nodePos
          let s := { s with rootNode := child, numLevels := s.numLevels - 1 }
          findPathLoop key fuel s child ((remainLevels + 65535) % 65536)
            notFirstLevel stack llc
        else
          findPathLoop key fuel s INVALID_POSITION ((remainLevels + 65535) % 65536)
            notFirstLevel ((nodePos, 0) :: stack) (getChildPos node 1)

/-- `MultiIndex::findPath` (udb_btree.cpp:1081): returns (state, success,
stack, lastLevelChild).  `success` is `remainLevels == 0 && !stack.empty()`. -/
def findPath (s : MIState) (key : List Nat) :
    MIState × Bool × List (Int × Nat) × Int :=
  if s.rootNode = INVALID_POSITION then (s, false, [], INVALID_POSITION)
  else
    let (s, stack, llc, remain) :=
      findPathLoop key 262144 s s.rootNode (s.numLevels % 65536) false [] INVALID_POSITION
    (s, remain == 0 && !stack.isEmpty, stack, llc)

/-! ### Insert (udb_btree.cpp:1148-1426) -/

/-- The node-to-node balancing loops of `insertKey`: repeatedly move the
last item of `node` to the front of `dst`. -/
def moveLastToFront (node dst : Node) : Nat → Node × Node
  | 0 => (node, dst)
  | t + 1 =>
    let srcNum := getNumItems node
    let dst := insertItem dst 1 (getNodeKey node srcNum) (getChildPos node srcNum)
    let node := deleteItem node srcNum
    moveLastToFront node dst t

/-- `MultiIndex::insertKey` (udb_btree.cpp:1300): insert a routing entry
into the node at `nodePos`, optionally first replacing key `changedKeyNo`
by `changedKeyVal`.  Returns (state, resultState, parentKey,
additionalKey, additionalChildPos): `1` done, `2` the node's last key
changed to `parentKey`, `3` the node was split with new sibling
`additionalChildPos` keyed `additionalKey`. -/
def insertKey (s : MIState) (nodePos : Int) (newKey : List Nat)
    (newChildPos : Int) (changedKeyNo : Nat) (changedKeyVal : Option (List Nat)) :
    MIState × Nat × List Nat × List Nat × Int :=
  let node := readNodeS s nodePos
  let node := match changedKeyVal with
    | some v => if changedKeyNo ≠ 0 then setNodeKeyN node changedKeyNo v else node
    | none => node
  let numItems := getNumItems node
  let (keyNo, exact) := binarySearchNode s.keyType s.keySize node newKey numItems
  if exact then
    let s := writeNodeS s (setChildPosN node keyNo newChildPos) nodePos
    (s, 1, [], [], INVALID_POSITION)
  else if numItems < s.maxItems then
    let node := insertItem node keyNo newKey newChildPos
    let s := writeNodeS s node nodePos
    if keyNo ≤ numItems then (s, 1, [], [], INVALID_POSITION)
    else (s, 2, storeKey s.keySize newKey, [], INVALID_POSITION)
  else
    let nextNodePos := node.nextNode
    let nextFree :=
      if nextNodePos ≠ INVALID_POSITION then
        let nextNode := readNodeS s nextNodePos
        if getNumItems nextNode < s.maxItems then some nextNode else none
      else none
    match nextFree with
    | some nextNode =>
      let (node, nextNode) :=
        if keyNo ≤ numItems then
          let nextNode := insertItem nextNode 1 (getNodeKey node numItems)
            (getChildPos node numItems)
          let node := deleteItem node numItems
          (insertItem node keyNo newKey newChildPos, nextNode)
        else (node, insertItem nextNode 1 newKey newChildPos)
      let (node, nextNode) :=
        if s.attributes &&& 2 ≠ 0 then
          moveLastToFront node nextNode ((getNumItems node - getNumItems nextNode) / 2)
        else (node, nextNode)
      let parentKey := getNodeKey node (getNumItems node)
      let s := writeNodeS s node nodePos
      let s := writeNodeS s nextNode nextNodePos
      (s, 2, parentKey, [], INVALID_POSITION)
    | none =>
      let newNode := resetNode
      let (node, newNode) :=
        if keyNo ≤ numItems then
          let newNode := insertItem newNode 1 (getNodeKey node numItems)
            (getChildPos node numItems)
          let node := deleteItem node numItems
          (insertItem node keyNo newKey newChildPos, newNode)
        else (node, insertItem newNode 1 newKey newChildPos)
      let (node, newNode) :=
        if s.attributes &&& 2 ≠ 0 then
          moveLastToFront node newNode ((getNumItems node - 1) / 2)
        else (node, newNode)
      let newNode := { newNode with nextNode := nextNodePos, prevNode := nodePos }
      let (s, newNodePos) := writeNewNode s newNode
      let node := { node with nextNode := newNodePos }
      let s :=
        if nextNodePos ≠ INVALID_POSITION then
          let nn := readNodeS s nextNodePos
          writeNodeS s { nn with prevNode := newNodePos } nextNodePos
        else s
      let s := writeNodeS s node nodePos
      let parentKey := getNodeKey node (getNumItems node)
      let additionalKey := getNodeKey newNode (getNumItems newNode)
      (s, 3, parentKey, additionalKey, newNodePos)

/-- The `do { ... } while` parent-key propagation shared by `append`
(case 2, udb_btree.cpp:1259) and `deleteKeyFromNodes` (case 2,
udb_btree.cpp:1503): pop the stack, overwrite the recorded entry's key
with `parentKey`, and continue while that entry was the node's last. -/
def propagateKeyUp (s : MIState) (parentKey : List Nat) :
    List (Int × Nat) → MIState
  | [] => s
  | (nodePos, keyNo) :: rest =>
    let node := readNodeS s nodePos
    let node := setNodeKeyN node keyNo parentKey
    let s := writeNodeS s node nodePos
    if keyNo = getNumItems node ∧ rest ≠ [] then propagateKeyUp s parentKey rest
    else s

/-- The `while (nodePos != INVALID_POSITION)` insertion loop of `append`
(udb_btree.cpp:1238): run `insertKey` and dispatch on its result state.
The loop continues only through case 3 which pops the stack, so the
stack length bounds the iterations. -/
def appendLoop (key : List Nat) :
    Nat → MIState → List (Int × Nat) → Int → List Nat → Int → Nat →
    Option (List Nat) → MIState × Bool
  | 0, s, _, _, _, _, _, _ => (s, true)
  | fuel + 1, s, stack, nodePos, newKeyBlock, newChildPos, changedKeyNo, changedKeyVal =>
    let (s, state, parentKey, additionalKey, additionalChildPos) :=
      insertKey s nodePos newKeyBlock newChildPos changedKeyNo changedKeyVal
    if state = 1 then (s, true)
    else if state = 2 then (propagateKeyUp s parentKey stack, true)
    else if state = 3 then
      match stack with
      | (pNodePos, pKeyNo) :: rest =>
        appendLoop key fuel s rest pNodePos additionalKey additionalChildPos
          pKeyNo (some parentKey)
      | [] =>
        let node := { resetNode with
          items := [(parentKey, nodePos), (additionalKey, additionalChildPos)] }
        let (s, newRootPos) := writeNewNode s node
        let s := { s with rootNode := newRootPos, numLevels := s.numLevels + 1 }
        (s, true)
    else (s, false)

/-- `MultiIndex::append` (udb_btree.cpp:1148): find the path, splice a new
leaf into the chain before the found leaf, then either reject (the
duplicate branch — note the source tests `(attributes | UNIQUE) != 0`,
bitwise OR, which is non-zero for every attribute value), update the
matching entry's child, or insert a routing entry with upward splits. -/
def append (s : MIState) (newKey : List Nat) (newDataPos : Int) : MIState × Bool :=
  if hasError s then (s, false)
  else
    let (s, ok, stack, nextLeavePos) := findPath s newKey
    if !ok then (s, false)
    else
      let (s, leavePos) := allocateLeave s
      let tempLeave := readLeaveS s nextLeavePos
      let prevLeavePos := tempLeave.prevLeave
      let s := writeLeaveS s { tempLeave with prevLeave := leavePos } nextLeavePos
      let s :=
        if prevLeavePos ≠ INVALID_POSITION then
          let t2 := readLeaveS s prevLeavePos
          writeLeaveS s { t2 with nextLeave := leavePos } prevLeavePos
        else { s with firstLeave := leavePos }
      let newLeave : Leaf := { nextLeave := nextLeavePos, prevLeave := prevLeavePos,
                               dataPos := newDataPos, key := storeKey s.keySize newKey }
      let s := writeLeaveS s newLeave leavePos
      let s := setPositionFromLeave s leavePos newLeave
      match stack with
      | [] => (s, true)
      | (nodePos, keyNo) :: restStack =>
        if keyNo > 0 then
          if (s.attributes ||| 1) ≠ 0 then
            let tempLeave := readLeaveS s nextLeavePos
            let s := writeLeaveS s { tempLeave with prevLeave := prevLeavePos } nextLeavePos
            let s :=
              if prevLeavePos ≠ INVALID_POSITION then
                let t := readLeaveS s prevLeavePos
                writeLeaveS s { t with nextLeave := nextLeavePos } prevLeavePos
              else { s with firstLeave := nextLeavePos }
            let s := freeLeaveOp s leavePos
            (s, false)
          else
            let node := readNodeS s nodePos
            let s := writeNodeS s (setChildPosN node keyNo leavePos) nodePos
            (s, true)
        else
          if nodePos = INVALID_POSITION then (s, true)
          else
            appendLoop newKey (restStack.length + 1) s restStack nodePos
              (storeKey s.keySize newKey) leavePos 0 none

/-! ### Delete (udb_btree.cpp:1475-1750) -/

/-- The merge loop of `removeKey` (udb_btree.cpp:1559): insert items
`1..cnt` of `src` at positions `1..cnt` of `dst` (prepending them in
order). -/
def mergeIntoNext (src dst : Node) (cnt : Nat) : Node :=
  (List.range cnt).foldl
    (fun d i => insertItem d (i + 1) (getNodeKey src (i + 1)) (getChildPos src (i + 1))) dst

/-- The borrow loop of `removeKey` (udb_btree.cpp:1578): move the first
item of `nextNode` to the end of `node`, `t` times. -/
def borrowFromNext (node nextNode : Node) : Nat → Node × Node
  | 0 => (node, nextNode)
  | t + 1 =>
    let node := insertItem node (getNumItems node + 1)
      (getNodeKey nextNode 1) (getChildPos nextNode 1)
    let nextNode := deleteItem nextNode 1
    borrowFromNext node nextNode t

/-- The body of `removeKey` after the entry has been deleted from the
node buffer (udb_btree.cpp:1549-1619): merge with or borrow from the next
sibling on underflow, unlink and free the node when it empties.  Returns
the updated state, the node buffer, the result state so far and the
`lastChanged` flag. -/
def removeKeyCore (s : MIState) (nodePos : Int) (node : Node) (numItems : Nat)
    (lastChanged : Bool) : MIState × Node × Nat × Bool :=
  if numItems ≠ 0 then
    let nextNodePos := node.nextNode
    if nextNodePos ≠ INVALID_POSITION then
      let nextNode := readNodeS s nextNodePos
      let nextNumItems := getNumItems nextNode
      if nextNumItems + numItems ≤ s.maxItems / 2 then
        let nextNode := mergeIntoNext node nextNode numItems
        let prevNodePos := node.prevNode
        let s :=
          if prevNodePos ≠ INVALID_POSITION then
            let prevNode := readNodeS s prevNodePos
            writeNodeS s { prevNode with nextNode := nextNodePos } prevNodePos
          else s
        let nextNode := { nextNode with prevNode := prevNodePos }
        let s := writeNodeS s nextNode nextNodePos
        let s := freeNodeOp s nodePos
        (s, node, 3, lastChanged)
      else if nextNumItems > numItems + 1 then
        let toMove := (nextNumItems - numItems) / 2
        let (node, nextNode) := borrowFromNext node nextNode toMove
        let s := writeNodeS s nextNode nextNodePos
        let s := writeNodeS s node nodePos
        (s, node, 1, true)
      else
        (writeNodeS s node nodePos, node, 1, lastChanged)
    else
      (writeNodeS s node nodePos, node, 1, lastChanged)
  else
    let nextNodePos := node.nextNode
    let prevNodePos := node.prevNode
    let s :=
      if nextNodePos ≠ INVALID_POSITION then
        let nextNode := readNodeS s nextNodePos
        writeNodeS s { nextNode with prevNode := prevNodePos } nextNodePos
      else s
    let s :=
      if prevNodePos ≠ INVALID_POSITION then
        let prevNode := readNodeS s prevNodePos
        writeNodeS s { prevNode with nextNode := nextNodePos } prevNodePos
      else s
    let s := freeNodeOp s nodePos
    (s, node, 3, lastChanged)

/-- `MultiIndex::removeKey` (udb_btree.cpp:1533): delete routing entry
`removeKeyNo` from the node at `nodePos` and handle underflow via
`removeKeyCore`.  Returns (state, resultState, parentKey): `1` done, `2`
the node's last key changed to `parentKey`, `3` the node was removed. -/
def removeKey (s : MIState) (nodePos : Int) (removeKeyNo : Nat) :
    MIState × Nat × List Nat :=
  let node := readNodeS s nodePos
  let numItems := getNumItems node
  if removeKeyNo > numItems ∨ removeKeyNo < 1 then (s, 1, [])
  else
    let node := deleteItem node removeKeyNo
    let lastChanged : Bool := removeKeyNo == numItems
    let numItems := numItems - 1
    let (s, node, resultState, lastChanged) :=
      removeKeyCore s nodePos node numItems lastChanged
    if resultState ≠ 3 ∧ lastChanged = true then
      (s, 2, getNodeKey node (getNumItems node))
    else (s, resultState, [])

/-- The `while (nodePos != INVALID_POSITION)` loop of
`deleteKeyFromNodes` (udb_btree.cpp:1492): run `removeKey` and dispatch;
the loop continues only through case 3, which pops the stack. -/
def deleteNodesLoop (leavePos : Int) :
    Nat → MIState → List (Int × Nat) → Int → Nat → MIState × Int
  | 0, s, _, _, _ => (s, leavePos)
  | fuel + 1, s, stack, nodePos, keyNoToRemove =>
    let (s, state, parentKey) := removeKey s nodePos keyNoToRemove
    if state = 1 then (s, leavePos)
    else if state = 2 then (propagateKeyUp s parentKey stack, leavePos)
    else if state = 3 then
      match stack with
      | (pNodePos, pKeyNo) :: rest => deleteNodesLoop leavePos fuel s rest pNodePos pKeyNo
      | [] => (s, leavePos)
    else (s, INVALID_POSITION)

/-- `MultiIndex::deleteKeyFromNodes` (udb_btree.cpp:1475): find the path
to `deleteKey`; fail unless the bottom entry is an exact match; remove the
entry, propagating underflow upward.  Returns the matched leaf position or
`INVALID_POSITION`. -/
def deleteKeyFromNodes (s : MIState) (delKey : List Nat) : MIState × Int :=
  let (s, ok, stack, leavePos) := findPath s delKey
  if !ok then (s, INVALID_POSITION)
  else
    match stack with
    | [] => (s, INVALID_POSITION)
    | (nodePos, keyNoToRemove) :: rest =>
      if keyNoToRemove = 0 then (s, INVALID_POSITION)
      else deleteNodesLoop leavePos (rest.length + 1) s rest nodePos keyNoToRemove

/-- The leaf-freeing `do { ... } while` walk of `deleteKey`
(udb_btree.cpp:1652): free the current leaf, follow its `nextLeave`, stop
at the chain end or at the first leaf whose key differs.  Returns (state,
stop position, last read leaf buffer). -/
def delChainLoop (s : MIState) (delKey : List Nat) :
    Nat → Int → Leaf → MIState × Int × Leaf
  | 0, pos, leaf => (s, pos, leaf)
  | fuel + 1, pos, leaf =>
    let s := freeLeaveOp s pos
    let pos := leaf.nextLeave
    if pos = INVALID_POSITION then (s, INVALID_POSITION, leaf)
    else
      let leaf := readLeaveS s pos
      if compare s.keyType s.keySize leaf.key delKey = 0 then
        delChainLoop s delKey fuel pos leaf
      else (s, pos, leaf)

/-- `MultiIndex::deleteKey` (udb_btree.cpp:1634): remove the routing entry
for `delKey`, then free the run of equal-keyed leaves starting at the
matched leaf, re-link the chain across the removed run and reposition the
cursor.  The chain-walk fuel is the file size: distinct leaf blocks each
occupy at least one byte of the file. -/
def deleteKey (s : MIState) (delKey : List Nat) : MIState × Bool :=
  if hasError s then (s, false)
  else
    let (s, leavePos) := deleteKeyFromNodes s delKey
    if leavePos = INVALID_POSITION then (s, false)
    else
      let tempLeave := readLeaveS s leavePos
      let firstLeavePos := tempLeave.prevLeave
      let (s, tempLeavePos, tempLeave) :=
        delChainLoop s delKey (s.fileSize.toNat + 1) leavePos tempLeave
      let tempLeave := { tempLeave with prevLeave := firstLeavePos }
      let s := writeLeaveS s tempLeave tempLeavePos
      if firstLeavePos ≠ INVALID_POSITION then
        let firstBlk := readLeaveS s firstLeavePos
        let firstBlk := { firstBlk with nextLeave := tempLeavePos }
        let s := writeLeaveS s firstBlk firstLeavePos
        if tempLeavePos ≠ s.lastLeave then
          (setPositionFromLeave s tempLeavePos tempLeave, true)
        else
          (setPositionFromLeave s firstLeavePos firstBlk, true)
      else
        let s := { s with firstLeave := tempLeavePos }
        if tempLeavePos ≠ s.lastLeave then
          (setPositionFromLeave s tempLeavePos tempLeave, true)
        else
          (resetPosition s, true)

/-- The prev-neighbour unsplice of `deleteCurrent` (udb_btree.cpp:1709):
re-link the previous leaf (or redirect `firstLeave`), returning the
updated state, the previous leaf's buffer and the `prevEqual` flag. -/
def dcPrevStep (s : MIState) (deletedKey : List Nat) (prevPos nextPos : Int) :
    MIState × Leaf × Bool :=
  if prevPos ≠ INVALID_POSITION then
    let prevBlk := readLeaveS s prevPos
    let prevBlk := { prevBlk with nextLeave := nextPos }
    let s := writeLeaveS s prevBlk prevPos
    (s, prevBlk, compare s.keyType s.keySize prevBlk.key deletedKey == 0)
  else ({ s with firstLeave := nextPos }, resetLeave s.keySize, false)

/-- The next-neighbour unsplice of `deleteCurrent` (udb_btree.cpp:1719). -/
def dcNextStep (s : MIState) (deletedKey : List Nat) (prevPos nextPos : Int) :
    MIState × Leaf × Bool :=
  if nextPos ≠ INVALID_POSITION then
    let nextBlk := readLeaveS s nextPos
    let nextBlk := { nextBlk with prevLeave := prevPos }
    let s := writeLeaveS s nextBlk nextPos
    (s, nextBlk, compare s.keyType s.keySize nextBlk.key deletedKey == 0)
  else (s, resetLeave s.keySize, false)

/-- The tree update of `deleteCurrent` (udb_btree.cpp:1729): nothing when
a left duplicate remains, `modifyLeave` when only a right duplicate
remains, else a full `deleteKeyFromNodes`. -/
def dcTreeStep (s : MIState) (prevEqual nextEqual : Bool) (deletedKey : List Nat)
    (nextPos : Int) : MIState :=
  if !prevEqual then
    if nextEqual then (modifyLeave s deletedKey nextPos).1
    else (deleteKeyFromNodes s deletedKey).1
  else s

/-- The cursor repositioning of `deleteCurrent` (udb_btree.cpp:1739). -/
def dcPositionStep (s : MIState) (prevPos nextPos : Int) (prevBlk nextBlk : Leaf) :
    MIState :=
  if nextPos ≠ INVALID_POSITION ∧ nextPos ≠ s.lastLeave then
    setPositionFromLeave s nextPos nextBlk
  else if prevPos ≠ INVALID_POSITION then
    setPositionFromLeave s prevPos prevBlk
  else resetPosition s

/-- `MultiIndex::deleteCurrent` (udb_btree.cpp:1686): remove the leaf at
the cursor (a no-op returning `INVALID_POSITION` when the cursor is unset
or on the EOF sentinel), update the tree unless an equal-keyed duplicate
remains, and reposition the cursor to next, else prev, else clear. -/
def deleteCurrent (s : MIState) : MIState × Int :=
  if hasError s then (s, INVALID_POSITION)
  else
    let currentLeave := s.currentLeave
    if currentLeave = INVALID_POSITION ∨ currentLeave = s.lastLeave then
      (s, INVALID_POSITION)
    else
      let deletedLeave := readLeaveS s currentLeave
      let dataPos := deletedLeave.dataPos
      let prevPos := s.posPrevLeave
      let nextPos := s.posNextLeave
      let (s, prevBlk, prevEqual) := dcPrevStep s deletedLeave.key prevPos nextPos
      let (s, nextBlk, nextEqual) := dcNextStep s deletedLeave.key prevPos nextPos
      let s := freeLeaveOp s currentLeave
      let s := dcTreeStep s prevEqual nextEqual deletedLeave.key nextPos
      let s := dcPositionStep s prevPos nextPos prevBlk nextBlk
      (s, dataPos)

/-! ### Specification-side observers

These definitions formalize the properties the specification asserts
about states of the machine above (the leaf chain, the per-entry routing
invariant, the structural invariants of spec §3).  They are the claim
side of the theorems below, evaluated against source-derived states. -/

/-- The leaf keys of the subtree under a child pointer `d` levels above
the leaves (`d = 0`: the child is a leaf). -/
def subtreeLeafKeys (s : MIState) : Nat → Int → List (List Nat)
  | 0, pos => [(readLeaveS s pos).key]
  | d + 1, pos =>
    ((readNodeS s pos).items.map (fun it => subtreeLeafKeys s d it.2)).flatten

/-- Spec §8 property 3 for one interior entry `(k, c)`: every key in the
subtree rooted at `c` compares `≤ k`, and the maximum key in that subtree
compares equal to `k`. -/
def entryRoutingOk (s : MIState) (d : Nat) (k : List Nat) (c : Int) : Bool :=
  let keys := subtreeLeafKeys s d c
  keys.all (fun k2 => compare s.keyType s.keySize k2 k ≤ 0) &&
  keys.any (fun k2 => compare s.keyType s.keySize k2 k == 0)

/-- All interior entries of the subtree at `pos` (`d` levels above the
leaves) satisfy `entryRoutingOk`. -/
def nodeRoutingOk (s : MIState) : Nat → Int → Bool
  | 0, _ => true
  | d + 1, pos =>
    let n := readNodeS s pos
    n.items.all (fun it => entryRoutingOk s d it.1 it.2) &&
    n.items.all (fun it => nodeRoutingOk s d it.2)

/-- Routing correctness of a whole index state (spec §3 invariant 1 and
§8 property 3). -/
def routingOk (s : MIState) : Bool := nodeRoutingOk s s.numLevels s.rootNode

/-- The leaf-chain positions from `firstLeave` following `nextLeave`
(bounded by fuel; distinct leaf blocks each occupy at least a byte of the
file, so `fileSize + 1` suffices for any intact chain). -/
def chainPositions (s : MIState) : Nat → Int → List Int
  | 0, _ => []
  | fuel + 1, pos =>
    if pos = INVALID_POSITION then []
    else pos :: chainPositions s fuel (readLeaveS s pos).nextLeave

/-- The leaf chain of a state, from `firstLeave`. -/
def theChain (s : MIState) : List Int :=
  chainPositions s (s.fileSize.toNat + 1) s.firstLeave

/-- Adjacent chain checks: key order (spec §8 property 1) and `prevLeave`
mirroring (spec §3 invariant 4). -/
def chainAdjacentOk (s : MIState) : List Int → Bool
  | [] => true
  | [_] => true
  | p :: q :: rest =>
    (compare s.keyType s.keySize (readLeaveS s p).key (readLeaveS s q).key ≤ 0) &&
    ((readLeaveS s q).prevLeave == p) &&
    chainAdjacentOk s (q :: rest)

/-- The routing keys of the interior layer directly above the leaves,
with their child positions. -/
def bottomEntries (s : MIState) : Nat → Int → List (List Nat × Int)
  | 0, _ => []
  | 1, pos => (readNodeS s pos).items
  | d + 2, pos =>
    ((readNodeS s pos).items.map (fun it => bottomEntries s (d + 1) it.2)).flatten

/-- Interior-node shape: `1 ≤ numUsed ≤ maxItems` everywhere,
entries in non-decreasing key order (spec §3 invariants 2 and 3). -/
def nodeShapeOk (s : MIState) : Nat → Int → Bool
  | 0, _ => true
  | d + 1, pos =>
    let n := readNodeS s pos
    (1 ≤ getNumItems n && getNumItems n ≤ s.maxItems) &&
    ((List.range (getNumItems n - 1)).all (fun i =>
      compare s.keyType s.keySize (getNodeKey n (i + 1)) (getNodeKey n (i + 2)) ≤ 0)) &&
    n.items.all (fun it => nodeShapeOk s d it.2)

/-- The structural invariants of spec §3 (items 1-5 and 8; checksums are
byte-level and trivially maintained by the typed machine, free-list blocks
are outside the tree): a well-formed chain from `firstLeave` to the EOF
sentinel `lastLeave`, sorted, doubly linked, without repetition; interior
nodes well-shaped with correct routing; every bottom entry's child on the
chain carrying an equal key, and every chain leaf covered by some bottom
entry; `numLevels ≥ 1`. -/
def structInv (s : MIState) : Bool :=
  let chain := theChain s
  let bots := bottomEntries s s.numLevels s.rootNode
  (1 ≤ s.numLevels) &&
  (chain ≠ [] : Bool) &&
  (chain.getLast? == some s.lastLeave) &&
  ((readLeaveS s s.lastLeave).nextLeave == INVALID_POSITION) &&
  ((readLeaveS s s.firstLeave).prevLeave == INVALID_POSITION) &&
  ((readLeaveS s s.lastLeave).key == fillEOFKey s.keyType s.keySize) &&
  decide chain.Nodup &&
  chainAdjacentOk s chain &&
  nodeShapeOk s s.numLevels s.rootNode &&
  routingOk s &&
  bots.all (fun e => (chain.contains e.2) &&
    (compare s.keyType s.keySize (readLeaveS s e.2).key e.1 == 0)) &&
  chain.all (fun p => bots.any (fun e =>
    compare s.keyType s.keySize (readLeaveS s p).key e.1 == 0))

/-- Whether some leaf on the chain has a key comparing equal to `k`
("a leaf with an equal key already exists"). -/
def chainHasKey (s : MIState) (k : List Nat) : Bool :=
  (theChain s).any (fun p => compare s.keyType s.keySize (readLeaveS s p).key k == 0)

/-- Run a list of `append` operations, keeping the states. -/
def runAppends (s : MIState) (ops : List (List Nat × Int)) : MIState :=
  ops.foldl (fun s kp => (append s kp.1 kp.2).1) s

/-! ### Concrete states used by the counterexample theorems -/

/-- A freshly initialized index: `CHARACTER` keys of size 1,
`ALLOW_DELETE` set (`UNIQUE` clear), `M = 3`, bulk counts 4 nodes and 6
leaves — `initIndex` applied to a newly constructed single-index file. -/
def freshChar : MIState := initIndex emptyState KeyType.CHARACTER 1 2 3 4 6

/-- `freshChar` after appending keys 10, 20, 30 (data 100, 200, 300). -/
def charState3 : MIState :=
  runAppends freshChar [([10], 100), ([20], 200), ([30], 300)]

/-- `freshChar` after appending keys 10..70 (data 100..700): the third
split (a rightmost-spine interior split whose parent entry is not last in
a full root) leaves the tree with a mis-keyed root entry. -/
def charState7 : MIState :=
  runAppends freshChar
    [([10], 100), ([20], 200), ([30], 300), ([40], 400),
     ([50], 500), ([60], 600), ([70], 700)]

/-- A CHARACTER index created with `freeCreateLeaves = 1` holding one key:
its free-leaf list is empty, so the next leaf allocation must grow the
file (claim C9). -/
def c9Empty : MIState :=
  runAppends (initIndex emptyState KeyType.CHARACTER 1 2 3 1 1) [([10], 100)]

/-! ### Claim theorems -/

/-- Claim C1 (code bug): on a non-UNIQUE index (`attributes & UNIQUE = 0`)
in a state satisfying the structural invariants, appending a key equal to
an already-present key returns `false` instead of succeeding, because the
source's duplicate check tests `(attributes | UNIQUE) != 0` (bitwise OR),
which holds for every attribute word.  Concretely: a fresh CHARACTER
index holding keys 10, 20, 30 rejects `append(10, 999)`, and `find(10)`
still returns the original data position 100. -/
theorem C1_nonunique_duplicate_append_returns_false :
    charState3.attributes &&& 1 = 0 ∧
    structInv charState3 = true ∧
    chainHasKey charState3 [10] = true ∧
    (append charState3 [10] 999).2 = false ∧
    (find (append charState3 [10] 999).1 [10]).2 = 100 := by decide

/-- Claim C2 (code bug): the EOF sentinel key is not the comparator
maximum for `INTEGER` and `NUM_BLOCK`.  `fillEOFKey` clears bit 7 of
byte 0, but an `INTEGER` key is read as a little-endian `int16_t`, whose
sign bit lives in byte 1: the sentinel decodes to `-129`, and the
representable key `0` (bytes `[0, 0]`) compares greater.  For `NUM_BLOCK`
(unsigned, last byte most significant) the all-`0xFF` key compares
greater than the sentinel. -/
theorem C2_integer_numblock_eof_key_not_maximum :
    fillEOFKey KeyType.INTEGER 2 = [127, 255] ∧
    toInt16 (fillEOFKey KeyType.INTEGER 2) = -129 ∧
    compare KeyType.INTEGER 2 [0, 0] (fillEOFKey KeyType.INTEGER 2) = 1 ∧
    fillEOFKey KeyType.NUM_BLOCK 2 = [127, 255] ∧
    compare KeyType.NUM_BLOCK 2 [255, 255] (fillEOFKey KeyType.NUM_BLOCK 2) = 1 := by
  decide

/-- Claim C3 (code bug): `deleteKey` can return `false` although a leaf
with an equal key exists.  On a freshly initialized index (structural
invariants hold) the EOF sentinel leaf carries the type-maximum key, but
`findPath` pushes `childNo = 0` ("no exact match") for a single-entry
level-1 root, so `deleteKey` of that key reports `false` instead of
`true`. -/
theorem C3_deleteKey_equal_leaf_returns_false :
    structInv freshChar = true ∧
    chainHasKey freshChar [255] = true ∧
    compare freshChar.keyType freshChar.keySize
      (readLeaveS freshChar freshChar.lastLeave).key [255] = 0 ∧
    (deleteKey freshChar [255]).2 = false := by decide

/-- Claim C4 (code bug): routing correctness is not preserved.  Starting
from a freshly initialized CHARACTER index (`M = 3`, `ALLOW_DELETE`) and
appending the keys 10..70, the root acquires the entry `([40], 612)`
whose subtree contains the key `[255]` with `compare [255] [40] = 1 > 0`
— an interior entry `(k, c)` with a subtree key exceeding `k`.  The
binary-search rewrite of `insertKey` clamps the insert position to
`numItems`, misplacing a routing key greater than every key of a full
node (the original linear scan could yield `numItems + 1`). -/
theorem C4_routing_invariant_violated_by_appends :
    routingOk freshChar = true ∧
    routingOk charState7 = false ∧
    charState7.numLevels = 3 ∧
    (readNodeS charState7 charState7.rootNode).items.getD 1 ([], 0) = ([40], 612) ∧
    (subtreeLeafKeys charState7 2 612).contains [255] = true ∧
    compare charState7.keyType charState7.keySize [255] [40] = 1 := by decide

/-- Claim C5 (confirmed): a block written through `writeNode`/`writeLeave`
has its checksum byte set so the XOR of all its bytes is zero, and
`readNode`/`readLeave` latch `BAD_DATA` exactly when the XOR of the block
as read is non-zero. -/
theorem C5_checksum_write_read (block : List Nat) (h : block ≠ []) :
    calculateBlockChecksum (setBlockChecksum block) = 0 ∧
    (readBlockError block = some ErrorCode.BAD_DATA ↔
      calculateBlockChecksum block ≠ 0) := by
  constructor
  · match block, h with
    | a :: t, _ =>
      show calculateBlockChecksum (calculateBlockChecksum (0 :: t) :: t) = 0
      rw [xor_cons (calculateBlockChecksum (0 :: t)) t, xor_cons 0 t]
      simp [Nat.xor_self]
  · simp only [readBlockError, testBlockChecksum]
    by_cases hz : calculateBlockChecksum block = 0 <;> simp [hz]

/-- Witness for C5 at a concrete block. -/
theorem C5_checksum_write_read_witness :
    ([7, 3, 9] : List Nat) ≠ [] ∧
    (calculateBlockChecksum (setBlockChecksum [7, 3, 9]) = 0 ∧
      (readBlockError [7, 3, 9] = some ErrorCode.BAD_DATA ↔
        calculateBlockChecksum [7, 3, 9] ≠ 0)) :=
  ⟨by decide, C5_checksum_write_read [7, 3, 9] (by decide)⟩

/-! ### Active-index selection (udb_btree.cpp:280-296) -/

/-- `MultiIndex::setActiveIndex` on the handle fields it touches: with an
error latched it changes nothing; otherwise a 1-based `indexNo` within
`[1, numIndexes]` selects `indexNo - 1`, and any other argument selects
index 0.  Returns the new `m_currentIndex`. -/
def setActiveIndexM (numIndexes : Nat) (hasErr : Bool) (currentIndex : Nat)
    (indexNo : Nat) : Nat :=
  if hasErr then currentIndex
  else if indexNo > 0 ∧ indexNo ≤ numIndexes then indexNo - 1
  else 0

/-- `MultiIndex::getActiveIndex`: the 1-based active index. -/
def getActiveIndexM (currentIndex : Nat) : Nat := currentIndex + 1

/-- Claim C10 (confirmed): `setActiveIndex(i)` selects index `i` for
`1 ≤ i ≤ numIndexes` and silently selects index 1 for every out-of-range
argument; afterwards `getActiveIndex()` is the selected 1-based number,
always within `[1, numIndexes]` (a file with at least one index). -/
theorem C10_setActiveIndex_selects (numIndexes indexNo cur : Nat)
    (hN : 1 ≤ numIndexes) :
    (1 ≤ indexNo ∧ indexNo ≤ numIndexes →
      getActiveIndexM (setActiveIndexM numIndexes false cur indexNo) = indexNo) ∧
    (indexNo = 0 ∨ numIndexes < indexNo →
      getActiveIndexM (setActiveIndexM numIndexes false cur indexNo) = 1) ∧
    1 ≤ getActiveIndexM (setActiveIndexM numIndexes false cur indexNo) ∧
    getActiveIndexM (setActiveIndexM numIndexes false cur indexNo) ≤ numIndexes := by
  unfold setActiveIndexM getActiveIndexM
  by_cases h : indexNo > 0 ∧ indexNo ≤ numIndexes <;> simp [h] <;> omega

/-- Witness for C10 at a 2-index file with the out-of-range argument 5. -/
theorem C10_setActiveIndex_selects_witness :
    1 ≤ 2 ∧
    ((1 ≤ 5 ∧ 5 ≤ 2 → getActiveIndexM (setActiveIndexM 2 false 0 5) = 5) ∧
     (5 = 0 ∨ 2 < 5 → getActiveIndexM (setActiveIndexM 2 false 0 5) = 1) ∧
     1 ≤ getActiveIndexM (setActiveIndexM 2 false 0 5) ∧
     getActiveIndexM (setActiveIndexM 2 false 0 5) ≤ 2) :=
  ⟨by decide, C10_setActiveIndex_selects 2 5 0 (by decide)⟩

/-! ### Comparator order lemmas

`compare kt ks` restricted to byte lists of length `ks` is a total
preorder; the lemmas below provide the transitivity used by the
binary-search proof. -/

theorem threeWay_nonpos (x y : Int) : threeWay x y ≤ 0 ↔ x ≤ y := by
  unfold threeWay
  split_ifs <;> omega

theorem memcmpB_le_trans : ∀ (a b c : List Nat), a.length = b.length →
    b.length = c.length → memcmpB a b ≤ 0 → memcmpB b c ≤ 0 → memcmpB a c ≤ 0 := by
  intro a
  induction a with
  | nil =>
    intro b c hab hbc h1 h2
    cases b <;> cases c <;> simp_all [memcmpB]
  | cons x as ih =>
    intro b c hab hbc h1 h2
    cases b with
    | nil => simp at hab
    | cons y bs =>
      cases c with
      | nil => simp at hbc
      | cons z cs =>
        simp only [memcmpB] at h1 h2 ⊢
        simp only [List.length_cons, Nat.add_right_cancel_iff] at hab hbc
        split_ifs at h1 h2 ⊢ <;> try omega
        exact ih bs cs hab hbc h1 h2

theorem strcmpB_le_trans : ∀ (a b c : List Nat), a.length = b.length →
    b.length = c.length → strcmpB a b ≤ 0 → strcmpB b c ≤ 0 → strcmpB a c ≤ 0 := by
  intro a
  induction a with
  | nil =>
    intro b c hab hbc h1 h2
    cases b <;> cases c <;> simp_all [strcmpB]
  | cons x as ih =>
    intro b c hab hbc h1 h2
    cases b with
    | nil => simp at hab
    | cons y bs =>
      cases c with
      | nil => simp at hbc
      | cons z cs =>
        simp only [strcmpB] at h1 h2 ⊢
        simp only [List.length_cons, Nat.add_right_cancel_iff] at hab hbc
        split_ifs at h1 h2 ⊢ <;> try omega
        all_goals first
          | exact ih bs cs hab hbc h1 h2
          | omega

/-- Transitivity of `compare kt ks` on the non-positive side, over keys of
the configured length. -/
theorem compare_le_trans (kt : KeyType) (ks : Nat) (a b c : List Nat)
    (ha : a.length = ks) (hb : b.length = ks) (hc : c.length = ks)
    (h1 : compare kt ks a b ≤ 0) (h2 : compare kt ks b c ≤ 0) :
    compare kt ks a c ≤ 0 := by
  cases kt with
  | BLOCK =>
    simp only [compare] at h1 h2 ⊢
    exact memcmpB_le_trans _ _ _ (by simp [ha, hb]) (by simp [hb, hc]) h1 h2
  | NUM_BLOCK =>
    simp only [compare, numBlockCmp] at h1 h2 ⊢
    exact memcmpB_le_trans _ _ _ (by simp [ha, hb]) (by simp [hb, hc]) h1 h2
  | INTEGER =>
    simp only [compare, threeWay_nonpos] at h1 h2 ⊢
    omega
  | LONG_INT =>
    simp only [compare, threeWay_nonpos] at h1 h2 ⊢
    omega
  | STRING =>
    simp only [compare] at h1 h2 ⊢
    exact strcmpB_le_trans _ _ _ (by omega) (by omega) h1 h2
  | LOGICAL =>
    simp only [compare] at h1 h2 ⊢
    split_ifs at h1 h2 ⊢ <;> first | omega | (push_neg at *; omega) | simp_all
  | CHARACTER =>
    simp only [compare, threeWay_nonpos] at h1 h2 ⊢
    omega
  | VOID =>
    simp only [compare]
    omega

/-! ### Binary-search correctness (claim C6) -/

/-- Loop invariant of `bsLoop`: starting from an interval `[left, right]`
whose left context is all strictly below the key and whose right end is
`≥` the key, with enough fuel, the loop lands on the least position `p`
with `compare key (nodeKey p) ≤ 0`. -/
theorem bsLoop_spec (kt : KeyType) (ks : Nat) (n : Node) (key : List Nat)
    (hlen : key.length = ks)
    (hklen : ∀ i, 1 ≤ i → i ≤ getNumItems n → (getNodeKey n i).length = ks)
    (hsorted : ∀ i j, 1 ≤ i → i ≤ j → j ≤ getNumItems n →
      compare kt ks (getNodeKey n i) (getNodeKey n j) ≤ 0) :
    ∀ (fuel left right : Nat), right - left ≤ fuel → 1 ≤ left → left ≤ right →
    right ≤ getNumItems n →
    (∀ j, 1 ≤ j → j < left → 0 < compare kt ks key (getNodeKey n j)) →
    compare kt ks key (getNodeKey n right) ≤ 0 →
    left ≤ bsLoop kt ks n key fuel left right ∧
    bsLoop kt ks n key fuel left right ≤ right ∧
    (∀ j, 1 ≤ j → j < bsLoop kt ks n key fuel left right →
      0 < compare kt ks key (getNodeKey n j)) ∧
    compare kt ks key (getNodeKey n (bsLoop kt ks n key fuel left right)) ≤ 0 := by
  intro fuel
  induction fuel with
  | zero =>
    intro left right hf h1 hlr hrn hA hB
    have : left = right := by omega
    subst this
    simp only [bsLoop]
    exact ⟨le_refl _, le_refl _, hA, hB⟩
  | succ fuel ih =>
    intro left right hf h1 hlr hrn hA hB
    by_cases hlt : left < right
    · have hbs : bsLoop kt ks n key (fuel + 1) left right =
        (if compare kt ks key (getNodeKey n (left + (right - left) / 2)) ≤ 0 then
          bsLoop kt ks n key fuel left (left + (right - left) / 2)
        else bsLoop kt ks n key fuel (left + (right - left) / 2 + 1) right) := by
        simp only [bsLoop, if_pos hlt]
      set mid := left + (right - left) / 2 with hmid
      have hmlt : mid < right := by omega
      have hmge : left ≤ mid := by omega
      by_cases hc : compare kt ks key (getNodeKey n mid) ≤ 0
      · rw [hbs, if_pos hc]
        obtain ⟨g1, g2, g3, g4⟩ := ih left mid (by omega) h1 hmge (by omega) hA hc
        exact ⟨g1, by omega, g3, g4⟩
      · rw [hbs, if_neg hc]
        have hA2 : ∀ j, 1 ≤ j → j < mid + 1 → 0 < compare kt ks key (getNodeKey n j) := by
          intro j hj1 hjm
          by_cases hjl : j < left
          · exact hA j hj1 hjl
          · by_contra hle
            push_neg at hle
            have hs : compare kt ks (getNodeKey n j) (getNodeKey n mid) ≤ 0 :=
              hsorted j mid hj1 (by omega) (by omega)
            have : compare kt ks key (getNodeKey n mid) ≤ 0 :=
              compare_le_trans kt ks key (getNodeKey n j) (getNodeKey n mid)
                hlen (hklen j hj1 (by omega)) (hklen mid (by omega) (by omega)) hle hs
            exact hc this
        obtain ⟨g1, g2, g3, g4⟩ :=
          ih (mid + 1) right (by omega) (by omega) (by omega) hrn hA2 hB
        exact ⟨by omega, g2, g3, g4⟩
    · have : left = right := by omega
      subst this
      simp only [bsLoop, if_neg hlt]
      exact ⟨le_refl _, le_refl _, hA, hB⟩

/-- Claim C6 (confirmed): on a node with `numItems ≥ 1` entries of the
configured key length, sorted non-decreasing under `compare`, and a
search key (of that length) comparing `≤` the last entry's key,
`binarySearchNode` returns the smallest 1-based position `p` with
`compare key (nodeKey p) ≤ 0`, and its exact-match flag is true if and
only if `compare key (nodeKey p) = 0`. -/
theorem C6_binarySearchNode_least_geq (kt : KeyType) (ks : Nat) (n : Node)
    (key : List Nat)
    (hn : 1 ≤ getNumItems n)
    (hlen : key.length = ks)
    (hklen : ∀ i, 1 ≤ i → i ≤ getNumItems n → (getNodeKey n i).length = ks)
    (hsorted : ∀ i j, 1 ≤ i → i ≤ j → j ≤ getNumItems n →
      compare kt ks (getNodeKey n i) (getNodeKey n j) ≤ 0)
    (hlast : compare kt ks key (getNodeKey n (getNumItems n)) ≤ 0) :
    1 ≤ (binarySearchNode kt ks n key (getNumItems n)).1 ∧
    (binarySearchNode kt ks n key (getNumItems n)).1 ≤ getNumItems n ∧
    compare kt ks key (getNodeKey n (binarySearchNode kt ks n key (getNumItems n)).1) ≤ 0 ∧
    (∀ j, 1 ≤ j → j < (binarySearchNode kt ks n key (getNumItems n)).1 →
      0 < compare kt ks key (getNodeKey n j)) ∧
    ((binarySearchNode kt ks n key (getNumItems n)).2 = true ↔
      compare kt ks key (getNodeKey n (binarySearchNode kt ks n key (getNumItems n)).1) = 0) := by
  have hne : getNumItems n ≠ 0 := by omega
  have hspec := bsLoop_spec kt ks n key hlen hklen hsorted (getNumItems n) 1
    (getNumItems n) (by omega) (le_refl 1) hn (le_refl _)
    (by intro j hj1 hj2; omega) hlast
  simp only [binarySearchNode, if_neg hne]
  refine ⟨hspec.1, hspec.2.1, hspec.2.2.2, hspec.2.2.1, ?_⟩
  simp [beq_iff_eq]

/-- A concrete sorted CHARACTER node used as the C6 witness input. -/
def bsWitNode : Node :=
  { nextNode := -1, prevNode := -1, items := [([10], 1), ([20], 2), ([30], 3)] }

/-- Witness for C6: `bsWitNode` holds keys 10, 20, 30; searching key 20
returns position 2 with exact match. -/
theorem C6_binarySearchNode_least_geq_witness :
    (1 ≤ getNumItems bsWitNode ∧
     binarySearchNode KeyType.CHARACTER 1 bsWitNode [20] 3 = (2, true)) ∧
    (1 ≤ (binarySearchNode KeyType.CHARACTER 1 bsWitNode [20]
        (getNumItems bsWitNode)).1 ∧
     compare KeyType.CHARACTER 1 [20]
       (getNodeKey bsWitNode (binarySearchNode KeyType.CHARACTER 1 bsWitNode [20]
         (getNumItems bsWitNode)).1) ≤ 0) := by
  constructor
  · exact ⟨by decide, by decide⟩
  · have h := C6_binarySearchNode_least_geq KeyType.CHARACTER 1 bsWitNode [20]
      (by decide) (by decide)
      (by intro i h1 h2
          have h3 : i ≤ 3 := by simpa [bsWitNode, getNumItems] using h2
          interval_cases i <;> decide)
      (by intro i j h1 h2 h3
          have h4 : j ≤ 3 := by simpa [bsWitNode, getNumItems] using h3
          have h5 : 1 ≤ j := by omega
          have h6 : i ≤ 3 := by omega
          interval_cases i <;> interval_cases j <;> first | decide | omega)
      (by decide)
    exact ⟨h.1, h.2.2.1⟩

/-! ### Find is read-only and idempotent (claim C7) -/

/-- `bringLeave` changes only the cursor: the stores and all descriptor
fields survive. -/
theorem bringLeave_core (s : MIState) (p : Int) :
    ((bringLeave s p).1).nodes = s.nodes ∧
    ((bringLeave s p).1).leaves = s.leaves ∧
    ((bringLeave s p).1).keyType = s.keyType ∧
    ((bringLeave s p).1).keySize = s.keySize ∧
    ((bringLeave s p).1).numLevels = s.numLevels ∧
    ((bringLeave s p).1).rootNode = s.rootNode ∧
    ((bringLeave s p).1).firstLeave = s.firstLeave ∧
    ((bringLeave s p).1).lastLeave = s.lastLeave ∧
    ((bringLeave s p).1).errorCode = s.errorCode := by
  simp only [bringLeave, setPositionFromLeave, setPosition]
  split_ifs <;> exact ⟨rfl, rfl, rfl, rfl, rfl, rfl, rfl, rfl, rfl⟩

/-- Writing the same cursor twice is the same as writing it once. -/
theorem setPosition_idem (s : MIState) (c n p d : Int) :
    setPosition (setPosition s c n p d) c n p d = setPosition s c n p d := by
  simp only [setPosition]
  split_ifs <;> rfl

/-- `findLeaveLoop` depends only on the node store and the key
configuration. -/
theorem findLeaveLoop_congr (s t : MIState) (key : List Nat)
    (h1 : t.nodes = s.nodes) (h2 : t.keyType = s.keyType)
    (h3 : t.keySize = s.keySize) :
    ∀ ln pos, findLeaveLoop t key ln pos = findLeaveLoop s key ln pos := by
  intro ln
  induction ln using Nat.strong_induction_on with
  | _ ln ih =>
    rcases ln with _ | ln
    · intro pos; rfl
    · rcases ln with _ | ln
      · intro pos; rfl
      · intro pos
        simp only [findLeaveLoop, readNodeS, h1, h2, h3]
        simp only [ih (ln + 1) (by omega)]

/-- `findLeave` depends only on the node store, the key configuration and
the tree descriptor fields. -/
theorem findLeave_congr (s t : MIState) (key : List Nat)
    (h1 : t.nodes = s.nodes) (h2 : t.keyType = s.keyType)
    (h3 : t.keySize = s.keySize) (h4 : t.numLevels = s.numLevels)
    (h5 : t.rootNode = s.rootNode) :
    findLeave t key = findLeave s key := by
  simp only [findLeave, h4, h5, findLeaveLoop_congr s t key h1 h2 h3,
    readNodeS, h1, h2, h3]

/-- Claim C7 (confirmed): `find` is idempotent and read-only.  On an
error-free state, running `find(k)` twice returns the same data position
and leaves the state (cursor included) exactly where a single `find(k)`
left it; and `find` does not modify any node or leaf block. -/
theorem C7_find_idempotent (s : MIState) (key : List Nat)
    (h : hasError s = false) :
    (find (find s key).1 key).2 = (find s key).2 ∧
    (find (find s key).1 key).1 = (find s key).1 ∧
    ((find s key).1).nodes = s.nodes ∧
    ((find s key).1).leaves = s.leaves := by
  rcases hfl : findLeave s key with ⟨found, leavePos⟩
  have hfind : find s key =
      (if found then bringLeave s leavePos
       else if leavePos ≠ INVALID_POSITION then ((bringLeave s leavePos).1, INVALID_POSITION)
       else (s, INVALID_POSITION)) := by
    simp only [find, h, Bool.false_eq_true, if_false, hfl]
  by_cases hp : leavePos = INVALID_POSITION
  · subst hp
    have hbl : bringLeave s INVALID_POSITION = (s, INVALID_POSITION) := by
      simp [bringLeave]
    have hid : find s key = (s, INVALID_POSITION) := by
      rw [hfind]
      cases found <;> simp [hbl]
    refine ⟨?_, ?_, ?_, ?_⟩ <;> simp [hid]
  · -- the state after the first find is a pure cursor update
    have hbl1 : (bringLeave s leavePos).1 =
        setPositionFromLeave s leavePos (readLeaveS s leavePos) := by
      simp only [bringLeave, if_neg hp]
    have hcore2 := bringLeave_core s leavePos
    have herr2 : hasError (bringLeave s leavePos).1 = false := by
      simp only [hasError] at h ⊢
      rw [hcore2.2.2.2.2.2.2.2.2]
      exact h
    have hfl2 : findLeave (bringLeave s leavePos).1 key = (found, leavePos) := by
      rw [findLeave_congr s (bringLeave s leavePos).1 key hcore2.1 hcore2.2.2.1
        hcore2.2.2.2.1 hcore2.2.2.2.2.1 hcore2.2.2.2.2.2.1, hfl]
    have hread2 : readLeaveS (setPositionFromLeave s leavePos (readLeaveS s leavePos))
        leavePos = readLeaveS s leavePos := by
      simp only [readLeaveS, setPositionFromLeave, setPosition]
      split_ifs <;> rfl
    have hsp2 : setPositionFromLeave
        (setPositionFromLeave s leavePos (readLeaveS s leavePos)) leavePos
        (readLeaveS s leavePos) =
        setPositionFromLeave s leavePos (readLeaveS s leavePos) := by
      simp only [setPositionFromLeave]
      exact setPosition_idem s leavePos (readLeaveS s leavePos).nextLeave
        (readLeaveS s leavePos).prevLeave (readLeaveS s leavePos).dataPos
    have hbl2 : bringLeave (bringLeave s leavePos).1 leavePos =
        ((bringLeave s leavePos).1, ((bringLeave s leavePos).1).currentDataPos) := by
      simp only [bringLeave, if_neg hp, hread2, hsp2]
    have hself : bringLeave s leavePos =
        ((bringLeave s leavePos).1, ((bringLeave s leavePos).1).currentDataPos) := by
      simp only [bringLeave, if_neg hp]
    have hfind2 : find (bringLeave s leavePos).1 key =
        (if found then bringLeave (bringLeave s leavePos).1 leavePos
         else if leavePos ≠ INVALID_POSITION then
           ((bringLeave (bringLeave s leavePos).1 leavePos).1, INVALID_POSITION)
         else ((bringLeave s leavePos).1, INVALID_POSITION)) := by
      simp only [find, herr2, Bool.false_eq_true, if_false, hfl2]
    cases found with
    | true =>
      have h1 : find s key =
          ((bringLeave s leavePos).1, ((bringLeave s leavePos).1).currentDataPos) := by
        rw [hfind, if_pos rfl, hself]
      refine ⟨?_, ?_, ?_, ?_⟩
      · rw [h1, hfind2, if_pos rfl, hbl2]
      · rw [h1, hfind2, if_pos rfl, hbl2]
      · rw [h1]
        exact hcore2.1
      · rw [h1]
        exact hcore2.2.1
    | false =>
      have h1 : find s key = ((bringLeave s leavePos).1, INVALID_POSITION) := by
        rw [hfind]
        simp only [Bool.false_eq_true, if_false]
        rw [if_pos hp]
      refine ⟨?_, ?_, ?_, ?_⟩
      · rw [h1, hfind2]
        simp only [Bool.false_eq_true, if_false]
        rw [if_pos hp, hbl2]
      · rw [h1, hfind2]
        simp only [Bool.false_eq_true, if_false]
        rw [if_pos hp, hbl2]
      · rw [h1]
        exact hcore2.1
      · rw [h1]
        exact hcore2.2.1

/-- Witness for C7 on a concrete populated index: `find(20)` run twice. -/
theorem C7_find_idempotent_witness :
    hasError charState3 = false ∧
    ((find (find charState3 [20]).1 [20]).2 = (find charState3 [20]).2 ∧
     (find (find charState3 [20]).1 [20]).1 = (find charState3 [20]).1 ∧
     ((find charState3 [20]).1).nodes = charState3.nodes ∧
     ((find charState3 [20]).1).leaves = charState3.leaves) :=
  ⟨by decide, C7_find_idempotent charState3 [20] (by decide)⟩

/-! ### Frame lemmas: the interior-tree mutators leave the leaf store and
the cursor untouched (claim C8) -/

/-- The fields of the state that `modifyLeave` / `deleteKeyFromNodes`
never write: the leaf store, the cursor, the leaf-chain descriptor fields
and the key configuration. -/
def leafFrame (s t : MIState) : Prop :=
  t.leaves = s.leaves ∧ t.currentLeave = s.currentLeave ∧
  t.posNextLeave = s.posNextLeave ∧ t.posPrevLeave = s.posPrevLeave ∧
  t.currentDataPos = s.currentDataPos ∧ t.bofFlag = s.bofFlag ∧
  t.eofFlag = s.eofFlag ∧ t.firstLeave = s.firstLeave ∧
  t.lastLeave = s.lastLeave ∧ t.freeLeave = s.freeLeave ∧
  t.keySize = s.keySize ∧ t.keyType = s.keyType

theorem leafFrame_refl (s : MIState) : leafFrame s s :=
  ⟨rfl, rfl, rfl, rfl, rfl, rfl, rfl, rfl, rfl, rfl, rfl, rfl⟩

theorem leafFrame_trans {s t u : MIState} (h1 : leafFrame s t)
    (h2 : leafFrame t u) : leafFrame s u :=
  ⟨h2.1.trans h1.1, h2.2.1.trans h1.2.1, h2.2.2.1.trans h1.2.2.1,
   h2.2.2.2.1.trans h1.2.2.2.1, h2.2.2.2.2.1.trans h1.2.2.2.2.1,
   h2.2.2.2.2.2.1.trans h1.2.2.2.2.2.1, h2.2.2.2.2.2.2.1.trans h1.2.2.2.2.2.2.1,
   h2.2.2.2.2.2.2.2.1.trans h1.2.2.2.2.2.2.2.1,
   h2.2.2.2.2.2.2.2.2.1.trans h1.2.2.2.2.2.2.2.2.1,
   h2.2.2.2.2.2.2.2.2.2.1.trans h1.2.2.2.2.2.2.2.2.2.1,
   h2.2.2.2.2.2.2.2.2.2.2.1.trans h1.2.2.2.2.2.2.2.2.2.2.1,
   h2.2.2.2.2.2.2.2.2.2.2.2.trans h1.2.2.2.2.2.2.2.2.2.2.2⟩

theorem writeNodeS_leafFrame (s : MIState) (n : Node) (p : Int) :
    leafFrame s (writeNodeS s n p) :=
  ⟨rfl, rfl, rfl, rfl, rfl, rfl, rfl, rfl, rfl, rfl, rfl, rfl⟩

theorem freeNodeOp_leafFrame (s : MIState) (p : Int) :
    leafFrame s (freeNodeOp s p) :=
  ⟨rfl, rfl, rfl, rfl, rfl, rfl, rfl, rfl, rfl, rfl, rfl, rfl⟩

theorem modifyLeave_leafFrame (s : MIState) (key : List Nat) (p : Int) :
    leafFrame s (modifyLeave s key p).1 := by
  simp only [modifyLeave]
  split_ifs <;> first
    | exact leafFrame_refl s
    | exact writeNodeS_leafFrame s _ _

theorem findPathLoop_leafFrame (key : List Nat) : ∀ (fuel : Nat) (s : MIState)
    (nodePos : Int) (remainLevels : Nat) (nfl : Bool) (stack : List (Int × Nat))
    (llc : Int), leafFrame s (findPathLoop key fuel s nodePos remainLevels nfl stack llc).1 := by
  intro fuel
  induction fuel with
  | zero => intro s nodePos r nfl stack llc; exact leafFrame_refl s
  | succ fuel ih =>
    intro s nodePos r nfl stack llc
    simp only [findPathLoop]
    split_ifs <;> first
      | exact leafFrame_refl s
      | exact ih s _ _ _ _ _
      | (refine leafFrame_trans ?_ (ih _ _ _ _ _ _)
         refine leafFrame_trans (freeNodeOp_leafFrame s nodePos) ?_
         exact ⟨rfl, rfl, rfl, rfl, rfl, rfl, rfl, rfl, rfl, rfl, rfl, rfl⟩)

theorem findPath_leafFrame (s : MIState) (key : List Nat) :
    leafFrame s (findPath s key).1 := by
  unfold findPath
  split_ifs with h
  · exact leafFrame_refl s
  · exact findPathLoop_leafFrame key 262144 s s.rootNode (s.numLevels % 65536)
      false [] INVALID_POSITION

theorem propagateKeyUp_leafFrame (parentKey : List Nat) :
    ∀ (stack : List (Int × Nat)) (s : MIState),
    leafFrame s (propagateKeyUp s parentKey stack) := by
  intro stack
  induction stack with
  | nil => intro s; exact leafFrame_refl s
  | cons hd rest ih =>
    intro s
    rcases hd with ⟨nodePos, keyNo⟩
    simp only [propagateKeyUp]
    split_ifs with h
    · exact leafFrame_trans (writeNodeS_leafFrame s _ _) (ih _)
    · exact writeNodeS_leafFrame s _ _

theorem removeKeyCore_leafFrame (s : MIState) (nodePos : Int) (node : Node)
    (numItems : Nat) (lastChanged : Bool) :
    leafFrame s (removeKeyCore s nodePos node numItems lastChanged).1 := by
  simp only [removeKeyCore]
  by_cases h1 : numItems ≠ 0
  · rw [if_pos h1]
    by_cases h2 : node.nextNode ≠ INVALID_POSITION
    · rw [if_pos h2]
      by_cases h3 : getNumItems (readNodeS s node.nextNode) + numItems ≤ s.maxItems / 2
      · rw [if_pos h3]
        by_cases h4 : node.prevNode ≠ INVALID_POSITION
        · rw [if_pos h4]
          exact leafFrame_trans (writeNodeS_leafFrame s _ _)
            (leafFrame_trans (writeNodeS_leafFrame _ _ _) (freeNodeOp_leafFrame _ _))
        · rw [if_neg h4]
          exact leafFrame_trans (writeNodeS_leafFrame s _ _) (freeNodeOp_leafFrame _ _)
      · rw [if_neg h3]
        by_cases h5 : getNumItems (readNodeS s node.nextNode) > numItems + 1
        · rw [if_pos h5]
          rcases hb : borrowFromNext node (readNodeS s node.nextNode)
            ((getNumItems (readNodeS s node.nextNode) - numItems) / 2) with ⟨nd, nn⟩
          simp only [hb]
          exact leafFrame_trans (writeNodeS_leafFrame s _ _) (writeNodeS_leafFrame _ _ _)
        · rw [if_neg h5]
          exact writeNodeS_leafFrame s _ _
    · rw [if_neg h2]
      exact writeNodeS_leafFrame s _ _
  · rw [if_neg h1]
    by_cases h6 : node.nextNode ≠ INVALID_POSITION
    · rw [if_pos h6]
      by_cases h7 : node.prevNode ≠ INVALID_POSITION
      · rw [if_pos h7]
        exact leafFrame_trans (writeNodeS_leafFrame s _ _)
          (leafFrame_trans (writeNodeS_leafFrame _ _ _) (freeNodeOp_leafFrame _ _))
      · rw [if_neg h7]
        exact leafFrame_trans (writeNodeS_leafFrame s _ _) (freeNodeOp_leafFrame _ _)
    · rw [if_neg h6]
      by_cases h7 : node.prevNode ≠ INVALID_POSITION
      · rw [if_pos h7]
        exact leafFrame_trans (writeNodeS_leafFrame s _ _) (freeNodeOp_leafFrame _ _)
      · rw [if_neg h7]
        exact freeNodeOp_leafFrame s _

theorem removeKey_leafFrame (s : MIState) (nodePos : Int) (removeKeyNo : Nat) :
    leafFrame s (removeKey s nodePos removeKeyNo).1 := by
  have hc := removeKeyCore_leafFrame s nodePos
    (deleteItem (readNodeS s nodePos) removeKeyNo)
    (getNumItems (readNodeS s nodePos) - 1)
    (removeKeyNo == getNumItems (readNodeS s nodePos))
  simp only [removeKey]
  by_cases h1 : removeKeyNo > getNumItems (readNodeS s nodePos) ∨ removeKeyNo < 1
  · rw [if_pos h1]
    exact leafFrame_refl s
  · rw [if_neg h1]
    rcases hcr : removeKeyCore s nodePos (deleteItem (readNodeS s nodePos) removeKeyNo)
      (getNumItems (readNodeS s nodePos) - 1)
      (removeKeyNo == getNumItems (readNodeS s nodePos)) with ⟨s2, n2, st2, lc2⟩
    rw [hcr] at hc
    simp only [hcr]
    split_ifs <;> exact hc

theorem deleteNodesLoop_leafFrame (leavePos : Int) : ∀ (fuel : Nat) (s : MIState)
    (stack : List (Int × Nat)) (nodePos : Int) (keyNo : Nat),
    leafFrame s (deleteNodesLoop leavePos fuel s stack nodePos keyNo).1 := by
  intro fuel
  induction fuel with
  | zero => intro s stack nodePos keyNo; exact leafFrame_refl s
  | succ fuel ih =>
    intro s stack nodePos keyNo
    simp only [deleteNodesLoop]
    have hrk := removeKey_leafFrame s nodePos keyNo
    rcases hrm : removeKey s nodePos keyNo with ⟨s2, state, parentKey⟩
    rw [hrm] at hrk
    simp only [hrm]
    split_ifs with h1 h2 h3
    · exact hrk
    · exact leafFrame_trans hrk (propagateKeyUp_leafFrame _ _ _)
    · rcases stack with _ | ⟨⟨pN, pK⟩, rest⟩
      · exact hrk
      · exact leafFrame_trans hrk (ih _ _ _ _)
    · exact hrk

theorem deleteKeyFromNodes_leafFrame (s : MIState) (delKey : List Nat) :
    leafFrame s (deleteKeyFromNodes s delKey).1 := by
  have hfp := findPath_leafFrame s delKey
  rcases hp : findPath s delKey with ⟨s2, ok, stack, leavePos⟩
  rw [hp] at hfp
  simp only [deleteKeyFromNodes, hp]
  split_ifs with h1
  · exact hfp
  · rcases stack with _ | ⟨⟨nodePos, keyNo⟩, rest⟩
    · exact hfp
    · simp only
      split_ifs with h2
      · exact hfp
      · exact leafFrame_trans hfp (deleteNodesLoop_leafFrame _ _ _ _ _ _)

/-- The tree-update step of `deleteCurrent` (udb_btree.cpp:1729-1736)
never touches the leaf store or the cursor, whichever branch runs. -/
theorem dcTreeStep_leafFrame (s : MIState) (b1 b2 : Bool) (k : List Nat) (p : Int) :
    leafFrame s (dcTreeStep s b1 b2 k p) := by
  unfold dcTreeStep
  cases b1 <;> cases b2 <;> simp only [Bool.not_true, Bool.not_false,
    if_true, if_false, Bool.false_eq_true, Bool.true_eq_false] <;>
    first
      | exact leafFrame_refl s
      | exact modifyLeave_leafFrame s k p
      | exact deleteKeyFromNodes_leafFrame s k

/-- `dcPrevStep` in the valid-previous case. -/
theorem dcPrevStep_pos (s : MIState) (k : List Nat) (prevPos nextPos : Int)
    (hP : prevPos ≠ INVALID_POSITION) :
    dcPrevStep s k prevPos nextPos =
      (writeLeaveS s { readLeaveS s prevPos with nextLeave := nextPos } prevPos,
       { readLeaveS s prevPos with nextLeave := nextPos },
       compare s.keyType s.keySize (readLeaveS s prevPos).key k == 0) := by
  unfold dcPrevStep
  rw [if_pos hP]
  rfl

/-- `dcPrevStep` without a previous leaf. -/
theorem dcPrevStep_neg (s : MIState) (k : List Nat) (prevPos nextPos : Int)
    (hP : prevPos = INVALID_POSITION) :
    dcPrevStep s k prevPos nextPos =
      ({ s with firstLeave := nextPos }, resetLeave s.keySize, false) := by
  unfold dcPrevStep
  rw [if_neg (by simp [hP])]

/-- `dcNextStep` in the valid-next case. -/
theorem dcNextStep_pos (s : MIState) (k : List Nat) (prevPos nextPos : Int)
    (hN : nextPos ≠ INVALID_POSITION) :
    dcNextStep s k prevPos nextPos =
      (writeLeaveS s { readLeaveS s nextPos with prevLeave := prevPos } nextPos,
       { readLeaveS s nextPos with prevLeave := prevPos },
       compare s.keyType s.keySize (readLeaveS s nextPos).key k == 0) := by
  unfold dcNextStep
  rw [if_pos hN]
  rfl

/-- `dcNextStep` without a next leaf. -/
theorem dcNextStep_neg (s : MIState) (k : List Nat) (prevPos nextPos : Int)
    (hN : nextPos = INVALID_POSITION) :
    dcNextStep s k prevPos nextPos = (s, resetLeave s.keySize, false) := by
  unfold dcNextStep
  rw [if_neg (by simp [hN])]

/-- The leaf store after `writeLeaveS` at an explicit position. -/
theorem writeLeaveS_leaves (s : MIState) (l : Leaf) (p q : Int)
    (hp : p ≠ INVALID_POSITION) :
    (writeLeaveS s l p).leaves q = if q = p then some l else s.leaves q := by
  simp [writeLeaveS, hp]

/-- Reading a leaf other than the one just written. -/
theorem readLeaveS_writeLeaveS_ne (s : MIState) (l : Leaf) (p q : Int)
    (hp : p ≠ INVALID_POSITION) (hq : q ≠ p) :
    readLeaveS (writeLeaveS s l p) q = readLeaveS s q := by
  simp [readLeaveS, writeLeaveS, hp, hq]

/-- The leaf store after `freeLeaveOp`. -/
theorem freeLeaveOp_leaves (s : MIState) (p q : Int) (hp : p ≠ INVALID_POSITION) :
    (freeLeaveOp s p).leaves q =
      if q = p then some { resetLeave s.keySize with nextLeave := s.freeLeave }
      else s.leaves q := by
  simp [freeLeaveOp, writeLeaveS, hp]

/-- Cursor-field values written by `setPosition`. -/
theorem setPosition_cursor (s : MIState) (c n p d : Int) :
    (setPosition s c n p d).currentLeave = c ∧
    (setPosition s c n p d).posNextLeave = n ∧
    (setPosition s c n p d).posPrevLeave = p ∧
    (setPosition s c n p d).currentDataPos = d := by
  simp only [setPosition]
  split_ifs <;> exact ⟨rfl, rfl, rfl, rfl⟩

/-- `setPosition` changes nothing but the cursor. -/
theorem setPosition_keeps (s : MIState) (c n p d : Int) :
    (setPosition s c n p d).leaves = s.leaves ∧
    (setPosition s c n p d).nodes = s.nodes ∧
    (setPosition s c n p d).firstLeave = s.firstLeave ∧
    (setPosition s c n p d).lastLeave = s.lastLeave := by
  simp only [setPosition]
  split_ifs <;> exact ⟨rfl, rfl, rfl, rfl⟩

/-- `dcPositionStep` never touches the leaf store or `firstLeave`. -/
theorem dcPositionStep_keeps (s : MIState) (p n : Int) (pb nb : Leaf) :
    (dcPositionStep s p n pb nb).leaves = s.leaves ∧
    (dcPositionStep s p n pb nb).firstLeave = s.firstLeave := by
  unfold dcPositionStep
  split_ifs with h1 h2
  · exact ⟨(setPosition_keeps _ _ _ _ _).1, (setPosition_keeps _ _ _ _ _).2.2.1⟩
  · exact ⟨(setPosition_keeps _ _ _ _ _).1, (setPosition_keeps _ _ _ _ _).2.2.1⟩
  · exact ⟨rfl, rfl⟩

/-- `dcPositionStep` cursor outcome when the next leaf is usable. -/
theorem dcPositionStep_next (s : MIState) (p n L : Int) (pb nb : Leaf)
    (hL : s.lastLeave = L) (h1 : n ≠ INVALID_POSITION) (h2 : n ≠ L) :
    (dcPositionStep s p n pb nb).currentLeave = n ∧
    (dcPositionStep s p n pb nb).posPrevLeave = nb.prevLeave ∧
    (dcPositionStep s p n pb nb).posNextLeave = nb.nextLeave ∧
    (dcPositionStep s p n pb nb).currentDataPos = nb.dataPos := by
  unfold dcPositionStep
  rw [hL, if_pos ⟨h1, h2⟩]
  obtain ⟨e1, e2, e3, e4⟩ := setPosition_cursor s n nb.nextLeave nb.prevLeave nb.dataPos
  exact ⟨e1, e3, e2, e4⟩

/-- `dcPositionStep` cursor outcome when it falls back to the previous
leaf. -/
theorem dcPositionStep_prev (s : MIState) (p n L : Int) (pb nb : Leaf)
    (hL : s.lastLeave = L) (h1 : ¬(n ≠ INVALID_POSITION ∧ n ≠ L))
    (h2 : p ≠ INVALID_POSITION) :
    (dcPositionStep s p n pb nb).currentLeave = p ∧
    (dcPositionStep s p n pb nb).posNextLeave = pb.nextLeave ∧
    (dcPositionStep s p n pb nb).posPrevLeave = pb.prevLeave ∧
    (dcPositionStep s p n pb nb).currentDataPos = pb.dataPos := by
  unfold dcPositionStep
  rw [hL, if_neg h1, if_pos h2]
  exact setPosition_cursor s p pb.nextLeave pb.prevLeave pb.dataPos

/-- `dcPositionStep` cursor outcome when both neighbours are unusable. -/
theorem dcPositionStep_reset (s : MIState) (p n L : Int) (pb nb : Leaf)
    (hL : s.lastLeave = L) (h1 : ¬(n ≠ INVALID_POSITION ∧ n ≠ L))
    (h2 : p = INVALID_POSITION) :
    (dcPositionStep s p n pb nb).currentLeave = INVALID_POSITION ∧
    (dcPositionStep s p n pb nb).posNextLeave = INVALID_POSITION ∧
    (dcPositionStep s p n pb nb).posPrevLeave = INVALID_POSITION ∧
    (dcPositionStep s p n pb nb).currentDataPos = INVALID_POSITION := by
  unfold dcPositionStep
  rw [hL, if_neg h1, if_neg (fun hc => hc h2)]
  exact ⟨rfl, rfl, rfl, rfl⟩

/-- Claim C8 (confirmed): `deleteCurrent` is a no-op returning
`INVALID_POSITION` when the cursor is unset or on the EOF sentinel;
otherwise — on a cursor whose cached neighbours agree with the current
leaf's chain links and are distinct from it — it returns the deleted
leaf's `dataPos`, removes exactly that one leaf from the chain (the two
neighbours are re-linked around it, the leaf itself goes to the free
list, every other leaf block is untouched, `firstLeave` is redirected
only when the leaf was first), and repositions the cursor to the next
leaf if that is not the EOF sentinel, else to the previous leaf, else
clears it. -/
theorem C8_deleteCurrent_behavior (s : MIState) (h : hasError s = false) :
    ((s.currentLeave = INVALID_POSITION ∨ s.currentLeave = s.lastLeave) →
      deleteCurrent s = (s, INVALID_POSITION)) ∧
    (s.currentLeave ≠ INVALID_POSITION → s.currentLeave ≠ s.lastLeave →
     s.posPrevLeave = (readLeaveS s s.currentLeave).prevLeave →
     s.posNextLeave = (readLeaveS s s.currentLeave).nextLeave →
     s.posPrevLeave ≠ s.currentLeave → s.posNextLeave ≠ s.currentLeave →
     (s.posPrevLeave ≠ INVALID_POSITION → s.posNextLeave ≠ INVALID_POSITION →
       s.posPrevLeave ≠ s.posNextLeave) →
     ((deleteCurrent s).2 = (readLeaveS s s.currentLeave).dataPos ∧
      (s.posPrevLeave ≠ INVALID_POSITION →
        ((deleteCurrent s).1).leaves s.posPrevLeave =
          some { readLeaveS s s.posPrevLeave with nextLeave := s.posNextLeave }) ∧
      (s.posNextLeave ≠ INVALID_POSITION →
        ((deleteCurrent s).1).leaves s.posNextLeave =
          some { readLeaveS s s.posNextLeave with prevLeave := s.posPrevLeave }) ∧
      ((deleteCurrent s).1).leaves s.currentLeave =
        some { resetLeave s.keySize with nextLeave := s.freeLeave } ∧
      (∀ q, q ≠ s.posPrevLeave → q ≠ s.posNextLeave → q ≠ s.currentLeave →
        ((deleteCurrent s).1).leaves q = s.leaves q) ∧
      (s.posPrevLeave = INVALID_POSITION →
        ((deleteCurrent s).1).firstLeave = s.posNextLeave) ∧
      (s.posPrevLeave ≠ INVALID_POSITION →
        ((deleteCurrent s).1).firstLeave = s.firstLeave) ∧
      (s.posNextLeave ≠ INVALID_POSITION ∧ s.posNextLeave ≠ s.lastLeave →
        ((deleteCurrent s).1).currentLeave = s.posNextLeave ∧
        ((deleteCurrent s).1).posPrevLeave = s.posPrevLeave ∧
        ((deleteCurrent s).1).posNextLeave = (readLeaveS s s.posNextLeave).nextLeave ∧
        ((deleteCurrent s).1).currentDataPos = (readLeaveS s s.posNextLeave).dataPos) ∧
      (¬(s.posNextLeave ≠ INVALID_POSITION ∧ s.posNextLeave ≠ s.lastLeave) →
       s.posPrevLeave ≠ INVALID_POSITION →
        ((deleteCurrent s).1).currentLeave = s.posPrevLeave ∧
        ((deleteCurrent s).1).posNextLeave = s.posNextLeave ∧
        ((deleteCurrent s).1).posPrevLeave = (readLeaveS s s.posPrevLeave).prevLeave ∧
        ((deleteCurrent s).1).currentDataPos = (readLeaveS s s.posPrevLeave).dataPos) ∧
      (¬(s.posNextLeave ≠ INVALID_POSITION ∧ s.posNextLeave ≠ s.lastLeave) →
       s.posPrevLeave = INVALID_POSITION →
        ((deleteCurrent s).1).currentLeave = INVALID_POSITION ∧
        ((deleteCurrent s).1).posNextLeave = INVALID_POSITION ∧
        ((deleteCurrent s).1).posPrevLeave = INVALID_POSITION ∧
        ((deleteCurrent s).1).currentDataPos = INVALID_POSITION))) := by
  have hc1 : ¬(hasError s = true) := by
    rw [h]
    exact Bool.false_ne_true
  constructor
  · intro hcond
    simp only [deleteCurrent, if_neg hc1, if_pos hcond]
  · intro hcur hlast hprev hnext hd1 hd2 hd3
    have hc2 : ¬(s.currentLeave = INVALID_POSITION ∨ s.currentLeave = s.lastLeave) := by
      push_neg
      exact ⟨hcur, hlast⟩
    by_cases hP : s.posPrevLeave = INVALID_POSITION
    · by_cases hN : s.posNextLeave = INVALID_POSITION
      · simp only [deleteCurrent, if_neg hc1, if_neg hc2,
          dcPrevStep_neg s (readLeaveS s s.currentLeave).key s.posPrevLeave
            s.posNextLeave hP,
          dcNextStep_neg { s with firstLeave := s.posNextLeave }
            (readLeaveS s s.currentLeave).key s.posPrevLeave s.posNextLeave hN]
        refine ⟨by trivial, ?_, ?_, ?_, ?_, ?_, ?_, ?_, ?_, ?_⟩
        · intro h9
          exact absurd hP h9
        · intro h9
          exact absurd hN h9
        · rw [(dcPositionStep_keeps _ _ _ _ _).1, (dcTreeStep_leafFrame _ _ _ _ _).1,
            freeLeaveOp_leaves _ _ _ hcur, if_pos rfl]
        · intro q hq1 hq2 hq3
          rw [(dcPositionStep_keeps _ _ _ _ _).1, (dcTreeStep_leafFrame _ _ _ _ _).1,
            freeLeaveOp_leaves _ _ _ hcur, if_neg hq3]
        · intro h9
          rw [(dcPositionStep_keeps _ _ _ _ _).2,
            (dcTreeStep_leafFrame _ _ _ _ _).2.2.2.2.2.2.2.1]
          rfl
        · intro h9
          exact absurd hP h9
        · intro h9
          exact absurd hN h9.1
        · intro h9 h10
          exact absurd hP h10
        · intro h9 h10
          refine dcPositionStep_reset _ _ _ s.lastLeave _ _ ?_ h9 h10
          exact ((dcTreeStep_leafFrame _ _ _ _ _).2.2.2.2.2.2.2.2.1).trans rfl
      · have hre : readLeaveS { s with firstLeave := s.posNextLeave } s.posNextLeave
            = readLeaveS s s.posNextLeave := rfl
        simp only [deleteCurrent, if_neg hc1, if_neg hc2,
          dcPrevStep_neg s (readLeaveS s s.currentLeave).key s.posPrevLeave
            s.posNextLeave hP,
          dcNextStep_pos { s with firstLeave := s.posNextLeave }
            (readLeaveS s s.currentLeave).key s.posPrevLeave s.posNextLeave hN, hre]
        refine ⟨by trivial, ?_, ?_, ?_, ?_, ?_, ?_, ?_, ?_, ?_⟩
        · intro h9
          exact absurd hP h9
        · intro h9
          rw [(dcPositionStep_keeps _ _ _ _ _).1, (dcTreeStep_leafFrame _ _ _ _ _).1,
            freeLeaveOp_leaves _ _ _ hcur, if_neg hd2, writeLeaveS_leaves _ _ _ _ hN,
            if_pos rfl]
        · rw [(dcPositionStep_keeps _ _ _ _ _).1, (dcTreeStep_leafFrame _ _ _ _ _).1,
            freeLeaveOp_leaves _ _ _ hcur, if_pos rfl]
          rfl
        · intro q hq1 hq2 hq3
          rw [(dcPositionStep_keeps _ _ _ _ _).1, (dcTreeStep_leafFrame _ _ _ _ _).1,
            freeLeaveOp_leaves _ _ _ hcur, if_neg hq3, writeLeaveS_leaves _ _ _ _ hN,
            if_neg hq2]
        · intro h9
          rw [(dcPositionStep_keeps _ _ _ _ _).2,
            (dcTreeStep_leafFrame _ _ _ _ _).2.2.2.2.2.2.2.1]
          rfl
        · intro h9
          exact absurd hP h9
        · intro h9
          refine dcPositionStep_next _ _ _ s.lastLeave _ _ ?_ h9.1 h9.2
          exact ((dcTreeStep_leafFrame _ _ _ _ _).2.2.2.2.2.2.2.2.1).trans rfl
        · intro h9 h10
          exact absurd hP h10
        · intro h9 h10
          refine dcPositionStep_reset _ _ _ s.lastLeave _ _ ?_ h9 h10
          exact ((dcTreeStep_leafFrame _ _ _ _ _).2.2.2.2.2.2.2.2.1).trans rfl
    · by_cases hN : s.posNextLeave = INVALID_POSITION
      · simp only [deleteCurrent, if_neg hc1, if_neg hc2,
          dcPrevStep_pos s (readLeaveS s s.currentLeave).key s.posPrevLeave
            s.posNextLeave hP,
          dcNextStep_neg
            (writeLeaveS s
              { readLeaveS s s.posPrevLeave with nextLeave := s.posNextLeave }
              s.posPrevLeave)
            (readLeaveS s s.currentLeave).key s.posPrevLeave s.posNextLeave hN]
        refine ⟨by trivial, ?_, ?_, ?_, ?_, ?_, ?_, ?_, ?_, ?_⟩
        · intro h9
          rw [(dcPositionStep_keeps _ _ _ _ _).1, (dcTreeStep_leafFrame _ _ _ _ _).1,
            freeLeaveOp_leaves _ _ _ hcur, if_neg hd1, writeLeaveS_leaves _ _ _ _ hP,
            if_pos rfl]
        · intro h9
          exact absurd hN h9
        · rw [(dcPositionStep_keeps _ _ _ _ _).1, (dcTreeStep_leafFrame _ _ _ _ _).1,
            freeLeaveOp_leaves _ _ _ hcur, if_pos rfl]
          rfl
        · intro q hq1 hq2 hq3
          rw [(dcPositionStep_keeps _ _ _ _ _).1, (dcTreeStep_leafFrame _ _ _ _ _).1,
            freeLeaveOp_leaves _ _ _ hcur, if_neg hq3, writeLeaveS_leaves _ _ _ _ hP,
            if_neg hq1]
        · intro h9
          exact absurd h9 hP
        · intro h9
          rw [(dcPositionStep_keeps _ _ _ _ _).2,
            (dcTreeStep_leafFrame _ _ _ _ _).2.2.2.2.2.2.2.1]
          rfl
        · intro h9
          exact absurd hN h9.1
        · intro h9 h10
          refine dcPositionStep_prev _ _ _ s.lastLeave _ _ ?_ h9 h10
          exact ((dcTreeStep_leafFrame _ _ _ _ _).2.2.2.2.2.2.2.2.1).trans rfl
        · intro h9 h10
          exact absurd h10 hP
      · simp only [deleteCurrent, if_neg hc1, if_neg hc2,
          dcPrevStep_pos s (readLeaveS s s.currentLeave).key s.posPrevLeave
            s.posNextLeave hP,
          dcNextStep_pos
            (writeLeaveS s
              { readLeaveS s s.posPrevLeave with nextLeave := s.posNextLeave }
              s.posPrevLeave)
            (readLeaveS s s.currentLeave).key s.posPrevLeave s.posNextLeave hN,
          readLeaveS_writeLeaveS_ne s
            { readLeaveS s s.posPrevLeave with nextLeave := s.posNextLeave }
            s.posPrevLeave s.posNextLeave hP (Ne.symm (hd3 hP hN))]
        refine ⟨by trivial, ?_, ?_, ?_, ?_, ?_, ?_, ?_, ?_, ?_⟩
        · intro h9
          rw [(dcPositionStep_keeps _ _ _ _ _).1, (dcTreeStep_leafFrame _ _ _ _ _).1,
            freeLeaveOp_leaves _ _ _ hcur, if_neg hd1, writeLeaveS_leaves _ _ _ _ hN,
            if_neg (hd3 hP hN), writeLeaveS_leaves _ _ _ _ hP, if_pos rfl]
        · intro h9
          rw [(dcPositionStep_keeps _ _ _ _ _).1, (dcTreeStep_leafFrame _ _ _ _ _).1,
            freeLeaveOp_leaves _ _ _ hcur, if_neg hd2, writeLeaveS_leaves _ _ _ _ hN,
            if_pos rfl]
        · rw [(dcPositionStep_keeps _ _ _ _ _).1, (dcTreeStep_leafFrame _ _ _ _ _).1,
            freeLeaveOp_leaves _ _ _ hcur, if_pos rfl]
          rfl
        · intro q hq1 hq2 hq3
          rw [(dcPositionStep_keeps _ _ _ _ _).1, (dcTreeStep_leafFrame _ _ _ _ _).1,
            freeLeaveOp_leaves _ _ _ hcur, if_neg hq3, writeLeaveS_leaves _ _ _ _ hN,
            if_neg hq2, writeLeaveS_leaves _ _ _ _ hP, if_neg hq1]
        · intro h9
          exact absurd h9 hP
        · intro h9
          rw [(dcPositionStep_keeps _ _ _ _ _).2,
            (dcTreeStep_leafFrame _ _ _ _ _).2.2.2.2.2.2.2.1]
          rfl
        · intro h9
          refine dcPositionStep_next _ _ _ s.lastLeave _ _ ?_ h9.1 h9.2
          exact ((dcTreeStep_leafFrame _ _ _ _ _).2.2.2.2.2.2.2.2.1).trans rfl
        · intro h9 h10
          refine dcPositionStep_prev _ _ _ s.lastLeave _ _ ?_ h9 h10
          exact ((dcTreeStep_leafFrame _ _ _ _ _).2.2.2.2.2.2.2.2.1).trans rfl
        · intro h9 h10
          exact absurd h10 hP

/-- Witness for C8: with the cursor positioned by `find` on the key-20
leaf of `charState3`, `deleteCurrent` returns that leaf's `dataPos` and
moves the cursor to the next leaf. -/
theorem C8_deleteCurrent_behavior_witness :
    hasError (find charState3 [20]).1 = false ∧
    (deleteCurrent (find charState3 [20]).1).2 =
      (readLeaveS (find charState3 [20]).1
        ((find charState3 [20]).1).currentLeave).dataPos ∧
    ((deleteCurrent (find charState3 [20]).1).1).currentLeave =
      ((find charState3 [20]).1).posNextLeave := by
  refine ⟨by decide, ?_, ?_⟩
  · exact ((C8_deleteCurrent_behavior (find charState3 [20]).1 (by decide)).2
      (by decide) (by decide) (by decide) (by decide) (by decide) (by decide)
      (by decide)).1
  · exact (((C8_deleteCurrent_behavior (find charState3 [20]).1 (by decide)).2
      (by decide) (by decide) (by decide) (by decide) (by decide) (by decide)
      (by decide)).2.2.2.2.2.2.2.1 (by decide)).1

/-! ### Claim C9: the state after a duplicate-rejected append
(udb_btree.cpp:1199-1215) -/

/-- `setPosition` written as a single record update: the cursor fields and
the two flags change, nothing else. -/
theorem setPosition_eq (s : MIState) (c n p d : Int) :
    setPosition s c n p d =
      { s with currentLeave := c, posNextLeave := n, posPrevLeave := p, currentDataPos := d, bofFlag := if p = INVALID_POSITION ∨ c = s.firstLeave then true else false, eofFlag := if n = INVALID_POSITION ∨ n = s.lastLeave then true else false } := by
  simp only [setPosition]
  split_ifs <;> rfl

/-- `writeLeaveS` at a valid position written as a single record update. -/
theorem writeLeaveS_eq (s : MIState) (l : Leaf) (p : Int)
    (hp : p ≠ INVALID_POSITION) :
    writeLeaveS s l p =
      { s with leaves := fun q => if q = p then some l else s.leaves q, putPos := p + leaveSizeOf s } := by
  simp [writeLeaveS, hp]

/-- Claim C9 (corrected): when `append` rejects a duplicate it restores
the on-disk leaf blocks, the interior nodes, `firstLeave`, the free-list
head and the file size, and leaves the cursor on the temporary leaf
(the old free-list head) it allocated and freed — provided the free-leaf
list was nonempty with a standard reset block at its head (else the
allocation grows the file, see the counterexample), the descent wrote
nothing (no root collapse), and the found leaf, its predecessor and the
free-list head are distinct existing blocks consistently chained. -/
theorem C9_duplicate_reject_restores_disk (s : MIState) (key : List Nat)
    (newDataPos : Int) (nodePos : Int) (keyNo : Nat)
    (restStack : List (Int × Nat)) (nextLeavePos nl : Int) (bN : Leaf)
    (h : hasError s = false)
    (hfp : findPath s key = (s, true, (nodePos, keyNo) :: restStack, nextLeavePos))
    (hk : 0 < keyNo)
    (hLfree : s.freeLeave ≠ INVALID_POSITION)
    (hhead : s.leaves s.freeLeave =
      some { resetLeave s.keySize with nextLeave := nl })
    (hN : nextLeavePos ≠ INVALID_POSITION)
    (hbN : s.leaves nextLeavePos = some bN)
    (hd1 : nextLeavePos ≠ s.freeLeave)
    (hd2 : bN.prevLeave ≠ s.freeLeave)
    (hd3 : bN.prevLeave ≠ INVALID_POSITION → bN.prevLeave ≠ nextLeavePos)
    (hP1 : bN.prevLeave ≠ INVALID_POSITION →
      s.leaves bN.prevLeave = some (readLeaveS s bN.prevLeave))
    (hP2 : bN.prevLeave ≠ INVALID_POSITION →
      (readLeaveS s bN.prevLeave).nextLeave = nextLeavePos)
    (hfirst : bN.prevLeave = INVALID_POSITION → s.firstLeave = nextLeavePos) :
    (append s key newDataPos).2 = false ∧
    (∀ q, ((append s key newDataPos).1).leaves q = s.leaves q) ∧
    ((append s key newDataPos).1).nodes = s.nodes ∧
    ((append s key newDataPos).1).firstLeave = s.firstLeave ∧
    ((append s key newDataPos).1).freeLeave = s.freeLeave ∧
    ((append s key newDataPos).1).fileSize = s.fileSize ∧
    ((append s key newDataPos).1).currentLeave = s.freeLeave ∧
    ((append s key newDataPos).1).posNextLeave = nextLeavePos ∧
    ((append s key newDataPos).1).posPrevLeave = bN.prevLeave ∧
    ((append s key newDataPos).1).currentDataPos = newDataPos := by
  have hc1 : ¬(hasError s = true) := by
    rw [h]
    exact Bool.false_ne_true
  have hattr : (s.attributes ||| 1) ≠ 0 := by
    intro hc
    have h1 := congrArg (Nat.testBit · 0) hc
    simp [Nat.testBit_or] at h1
  have halloc : allocateLeave s = ({ s with freeLeave := nl }, s.freeLeave) := by
    simp only [allocateLeave, if_neg hLfree, readLeaveS, hhead, Option.getD_some]
  by_cases hPm : bN.prevLeave = INVALID_POSITION
  · simp only [append, if_neg hc1, hfp, Bool.not_true, Bool.false_eq_true, if_false,
      halloc, setPositionFromLeave, setPosition_eq, freeLeaveOp, writeLeaveS_eq,
      readLeaveS, Option.getD_some, hbN, if_pos hk, if_pos hattr,
      if_neg (show ¬(bN.prevLeave ≠ INVALID_POSITION) from fun hcc => hcc hPm),
      ne_eq, not_false_eq_true, hN, hLfree, hd1]
    refine ⟨by trivial, ?_, by trivial, ?_, by trivial, by trivial, by trivial,
      by trivial, by trivial, by trivial⟩
    · intro q
      by_cases hqL : q = s.freeLeave
      · rw [if_pos hqL, hqL, hhead]
      · by_cases hqN : q = nextLeavePos
        · subst hqN
          rw [if_neg hd1, if_pos rfl]
          exact hbN.symm
        · rw [if_neg hqL, if_neg hqN, if_neg hqL, if_neg hqN]
    · exact (hfirst hPm).symm
  · simp only [append, if_neg hc1, hfp, Bool.not_true, Bool.false_eq_true, if_false,
      halloc, setPositionFromLeave, setPosition_eq, freeLeaveOp, writeLeaveS_eq,
      readLeaveS, Option.getD_some, hbN, if_pos hk, if_pos hattr,
      ne_eq, not_false_eq_true, if_true, hattr, hPm, hN, hLfree, hd1, hd2, hd3 hPm,
      Ne.symm (hd3 hPm)]
    refine ⟨by trivial, ?_, by trivial, by trivial, by trivial, by trivial,
      by trivial, by trivial, by trivial, by trivial⟩
    intro q
    by_cases hqL : q = s.freeLeave
    · rw [if_pos hqL, hqL, hhead]
    · by_cases hqN : q = nextLeavePos
      · subst hqN
        rw [if_neg hd1, if_neg (Ne.symm (hd3 hPm)), if_pos rfl]
        exact hbN.symm
      · by_cases hqP : q = bN.prevLeave
        · subst hqP
          rw [if_neg hd2, if_pos rfl, hP1 hPm, ← hP2 hPm]
          simp only [Option.getD_some]
        · rw [if_neg hqL, if_neg hqP, if_neg hqN, if_neg hqL, if_neg hqP,
            if_neg hqN]

/-- Counterexample to C9 as stated: on `c9Empty` (empty free-leaf list,
key 10 present) the duplicate `append(10, 999)` is rejected, yet the
free-list head and the file size both change — the temporary leaf
allocation grew the file, so the on-disk state is not restored. -/
theorem C9_duplicate_reject_counterexample :
    c9Empty.freeLeave = INVALID_POSITION ∧
    chainHasKey c9Empty [10] = true ∧
    (append c9Empty [10] 999).2 = false ∧
    ((append c9Empty [10] 999).1).freeLeave ≠ c9Empty.freeLeave ∧
    ((append c9Empty [10] 999).1).fileSize ≠ c9Empty.fileSize := by decide

/-- Witness for C9: on `charState3` the duplicate `append(10, 999)` is
rejected with the free list nonempty; the free-list head, the node store
and the file size are restored and the cursor sits on the freed
temporary leaf. -/
theorem C9_duplicate_reject_restores_disk_witness :
    hasError charState3 = false ∧
    (append charState3 [10] 999).2 = false ∧
    ((append charState3 [10] 999).1).freeLeave = charState3.freeLeave ∧
    ((append charState3 [10] 999).1).nodes = charState3.nodes ∧
    ((append charState3 [10] 999).1).fileSize = charState3.fileSize ∧
    ((append charState3 [10] 999).1).currentLeave = charState3.freeLeave := by
  have hmain := C9_duplicate_reject_restores_disk charState3 [10] 999 70 1
    [(162, 1)] 280 384 { nextLeave := 306, prevLeave := -1, dataPos := 100, key := [10] }
    (by decide) (by rfl) (by decide) (by decide) (by decide) (by decide)
    (by decide) (by decide) (by decide) (by decide) (by decide) (by decide)
    (by decide)
  exact ⟨by decide, hmain.1, hmain.2.2.2.2.1, hmain.2.2.1, hmain.2.2.2.2.2.1,
    hmain.2.2.2.2.2.2.1⟩

end UDB
